import Mathlib

/-!
A shallow embedding of the packagecloud client `pkgcloud`.

The definitions below follow `pkgcloudlib/pkgcloud.go` and the commands of
`cmd/all.go`, `cmd/push.go` and `cmd/destroy.go`.  Everything that the Go code obtains from a library (the JSON
decoder, `http.NewRequest`, `http.Client.Do`, the multipart request builder,
the operating system) is a field of `Env` or `Host`, so that every theorem
holds for all behaviours of those libraries.

Conventions.
* A Go `error` is observed through its `Error()` message and is a `String`.
* A function returning `(T, error)` returns `Except Error T`.
* Every operation that talks to the network takes the list of requests sent so
  far and returns the extended list; the server may answer a request depending
  on everything it has been sent before.
-/

namespace Pkgcloud

/-! ## Constants and plain data -/

/-- A Go error value, identified with the text its `Error()` method returns. -/
abbrev Error := String

/-- ServiceURL is the URL of the packagecloud API. -/
def ServiceURL : String := "https://packagecloud.io/api/v1"

/-- ServiceBaseURL is the base URL of packagecloud. -/
def ServiceBaseURL : String := "https://packagecloud.io/"

/-- UserAgent is the identifier sent with every request. -/
def UserAgent : String := "pkgcloud Go client"

/-- Client holds a base URL and a token (`type Client struct`). -/
structure Client where
  URL : String
  Token : String
deriving DecidableEq, Repr

/-- Package mirrors `type Package struct`; the creation time is kept as the
text the server sent, and the field `Type` is spelled `PkgType`. -/
structure Package where
  Name : String
  CreatedAt : String
  Epoch : Int
  Scope : String
  Private : Bool
  UploaderName : String
  Indexed : Bool
  RepositoryHTMLURL : String
  DownloadDetailsURL : String
  DownloadSeriesURL : String
  DownloadCountURL : String
  PromoteURL : String
  DestroyURL : String
  Filename : String
  DistroVersion : String
  Version : String
  Release : String
  PkgType : String
  PackageURL : String
  PackageHTMLURL : String
deriving DecidableEq, Repr

/-- DistributionVersion mirrors `type DistributionVersion struct`. -/
structure DistributionVersion where
  ID : Int
  DisplayName : String
  IndexName : String
deriving DecidableEq, Repr

/-- Distribution mirrors `type Distribution struct`. -/
structure Distribution where
  DisplayName : String
  IndexName : String
  Versions : List DistributionVersion
deriving DecidableEq, Repr

/-- Distributions mirrors `type Distributions struct`: the three families. -/
structure Distributions where
  Deb : List Distribution
  Dsc : List Distribution
  Rpm : List Distribution
deriving DecidableEq, Repr

/-- One entry of a parsed `Link` header (`linkheader.Link`). -/
structure Link where
  URL : String
  Rel : String
deriving DecidableEq, Repr, Inhabited

/-- An HTTP response as the client reads it: the status code, the body, the
three pagination headers as `Header.Get` returns them (empty when absent), and
the `Link` header as `linkheader.Parse` splits it, in header order. -/
structure Response where
  StatusCode : Int
  Body : String
  Total : String
  PerPage : String
  MaxPerPage : String
  Links : List Link
deriving DecidableEq, Repr

/-- An HTTP request as the client builds it.  `Params` and `File` are the
form fields and the file field of a multipart upload. -/
structure Request where
  Method : String
  URL : String
  Body : String
  Params : Option (List (String × String))
  File : Option (String × String)
  Username : String
  Password : String
  UserAgentHeader : List String
deriving DecidableEq, Repr

/-- The libraries and the network the client runs against. -/
structure Env where
  /-- Decoding a body into `map[string][]string`; the list gives the entries of
  the resulting map in the order in which a `range` over it visits them. -/
  decodeErrors : String → Except Error (List (String × List String))
  /-- Decoding a body into `[]*Package`. -/
  decodePackages : String → Except Error (List Package)
  /-- Decoding a body into `Distributions`. -/
  decodeDistributions : String → Except Error Distributions
  /-- Decoding a body into `struct{}`. -/
  decodeEmpty : String → Except Error Unit
  /-- The error of `http.NewRequest(method, url, _)`, if it rejects its arguments. -/
  newRequestErr : String → String → Option Error
  /-- The error of `upload.NewRequest` for a file path, if the file cannot be used. -/
  uploadErr : String → Option Error
  /-- Escaping of a form value (`url.Values.Encode`). -/
  queryEscape : String → String
  /-- The double-quoted form of a text (`strconv.Quote`, the `%q` verb). -/
  Quote : String → String
  /-- The outcome of sending a request: the response, or the cause of the
  failure of the transport.  It may depend on the requests sent before. -/
  Do : List Request → Request → Except Error Response

/-! ## Small library functions -/

/-- Decimal rendering of an integer (`strconv.Itoa`, the `%d` verb). -/
def Itoa (n : Int) : String := toString n

/-- The entries of `http.StatusText` for the codes this client names. -/
def StatusText (code : Int) : String :=
  if code = 200 then "OK"
  else if code = 201 then "Created"
  else if code = 401 then "Unauthorized"
  else if code = 404 then "Not Found"
  else if code = 422 then "Unprocessable Entity"
  else if code = 500 then "Internal Server Error"
  else ""

/-- The two failures of a number conversion (`strconv.ErrSyntax` and
`strconv.ErrRange`). -/
inductive NumErr where
  | syntaxErr
  | rangeErr
deriving DecidableEq, Repr

/-- The loop of `strconv.ParseUint` for base 10 and 64 bits, from the value
read so far: a character that is no decimal digit is a syntax failure, and a
value that leaves 64 bits is a range failure, whichever is met first. -/
def parseDigits : List Char → Nat → Except NumErr Nat
  | [], n => .ok n
  | c :: cs, n =>
    if c.isDigit then
      if n ≥ (2 ^ 64 - 1) / 10 + 1 then .error NumErr.rangeErr
      else if n * 10 + (c.toNat - 48) > 2 ^ 64 - 1 then .error NumErr.rangeErr
      else parseDigits cs (n * 10 + (c.toNat - 48))
    else .error NumErr.syntaxErr

/-- The text of the error of `strconv.Atoi` on an input. -/
def atoiError (env : Env) (s : String) (e : NumErr) : Error :=
  "strconv.Atoi: parsing " ++ env.Quote s ++
    (match e with
      | NumErr.syntaxErr => ": invalid syntax"
      | NumErr.rangeErr => ": value out of range")

/-- Atoi follows `strconv.Atoi`: an optional sign, then at least one decimal
digit, and the value has to fit a 64-bit `int`. -/
def Atoi (env : Env) (s : String) : Except Error Int :=
  let go (neg : Bool) (ds : List Char) : Except Error Int :=
    match ds with
    | [] => .error (atoiError env s NumErr.syntaxErr)
    | _ :: _ =>
      match parseDigits ds 0 with
      | .error NumErr.syntaxErr => .error (atoiError env s NumErr.syntaxErr)
      | .error NumErr.rangeErr => .error (atoiError env s NumErr.rangeErr)
      | .ok v =>
        if neg then
          (if v ≤ 2 ^ 63 then .ok (-(v : Int)) else .error (atoiError env s NumErr.rangeErr))
        else
          (if v < 2 ^ 63 then .ok (v : Int) else .error (atoiError env s NumErr.rangeErr))
  match s.toList with
  | '-' :: ds => go true ds
  | '+' :: ds => go false ds
  | ds => go false ds

/-! ## Response decoder -/

/-- The two nested `range` loops of the 422 branch: the first message of the
first entry visited, if that entry has one (`break` leaves after one entry). -/
def firstMessage : List (String × List String) → Option String
  | [] => none
  | (_, messages) :: _ =>
    match messages with
    | [] => none
    | msg :: _ => some msg

/-- decodeResponse checks the status code and tries to decode the body.
`decode` is `json.NewDecoder(resp.Body).Decode` at the type of the target. -/
def decodeResponse {α : Type} (env : Env) (decode : String → Except Error α)
    (resp : Response) : Except Error α :=
  if resp.StatusCode = 200 ∨ resp.StatusCode = 201 then
    decode resp.Body
  else if resp.StatusCode = 401 ∨ resp.StatusCode = 404 then
    .error ("HTTP status: " ++ StatusText resp.StatusCode)
  else if resp.StatusCode = 422 then
    match env.decodeErrors resp.Body with
    | .error err => .error err
    | .ok v =>
      match firstMessage v with
      | some msg => .error msg
      | none => .error "invalid HTTP body"
  else
    .error ("unexpected HTTP status: " ++ Itoa resp.StatusCode)

/-! ## Requests -/

/-- The request `http.NewRequest(method, url, body)` returns, unless the
library rejects the arguments. -/
def NewRequest (env : Env) (method url body : String) : Except Error Request :=
  match env.newRequestErr method url with
  | some err => .error err
  | none =>
    .ok { Method := method, URL := url, Body := body, Params := none, File := none,
          Username := "", Password := "", UserAgentHeader := [] }

/-- Modelled from the spec: `upload.NewRequest` of the package
`pkgcloudlib/upload`, which is not among the sources.  It builds a multipart
POST to the endpoint that carries the file under the given field name plus the
optional extra form fields, and fails when the file cannot be used. -/
def uploadNewRequest (env : Env) (endpoint : String)
    (extraParams : Option (List (String × String))) (paramName path : String) :
    Except Error Request :=
  match env.uploadErr path with
  | some err => .error err
  | none =>
    .ok { Method := "POST", URL := endpoint, Body := "", Params := extraParams,
          File := some (paramName, path),
          Username := "", Password := "", UserAgentHeader := [] }

/-- The two lines `req.SetBasicAuth(c.Token, "")` and
`req.Header.Add("User-Agent", UserAgent)` that follow every request
construction. -/
def authorize (c : Client) (req : Request) : Request :=
  { req with Username := c.Token, Password := "",
             UserAgentHeader := req.UserAgentHeader ++ [UserAgent] }

/-- Lower case of an ASCII letter, other characters unchanged. -/
def lowerChar (ch : Char) : Char :=
  if 'A' ≤ ch ∧ ch ≤ 'Z' then Char.ofNat (ch.toNat + 32) else ch

/-- The operation named in the errors of a request (`urlErrorOp` of
`net/http`): the method with its first character kept and the others in lower
case, and `Get` for the empty method. -/
def urlErrorOp (method : String) : String :=
  match method.toList with
  | [] => "Get"
  | ch :: rest => String.mk (ch :: rest.map lowerChar)

/-- The text of the `url.Error` that wraps a failure of a request: the
operation, the quoted URL and the text of the cause. -/
def urlErrorText (env : Env) (req : Request) (cause : Error) : Error :=
  urlErrorOp req.Method ++ " " ++ env.Quote req.URL ++ ": " ++ cause

/-- Sending a request with `http.Client.Do`.  The answer of `env.Do` is the
response or the cause of the failure; every error `Do` returns is a
`url.Error` wrapping that cause. -/
def clientDo (env : Env) (log : List Request) (req : Request) : Except Error Response :=
  match env.Do log req with
  | .error cause => .error (urlErrorText env req cause)
  | .ok resp => .ok resp

/-! ## Domain operations -/

/-- Exists checks whether `<repo>/<distro>/packageFilename` exists, by a HEAD
request. -/
def Client.Exists (env : Env) (c : Client) (repo distro packageFilename : String)
    (log : List Request) : Except Error Bool × List Request :=
  let endpoint :=
    ServiceBaseURL ++ "/" ++ repo ++ "/packages/" ++ distro ++ "/" ++ packageFilename
  match NewRequest env "HEAD" endpoint "" with
  | .error err => (.error err, log)
  | .ok req =>
    let req := authorize c req
    match clientDo env log req with
    | .error err =>
      if err = "HTTP status: Not Found" then (.ok false, log ++ [req])
      else (.error err, log ++ [req])
    | .ok resp =>
      if resp.StatusCode ≠ 200 then (.ok false, log ++ [req])
      else (.ok true, log ++ [req])

/-- Destroy removes a package from a repository, by path. -/
def Client.Destroy (env : Env) (c : Client) (repo packageFilename : String)
    (log : List Request) : Except Error Unit × List Request :=
  let endpoint := ServiceURL ++ "/repos/" ++ repo ++ "/" ++ packageFilename
  match NewRequest env "DELETE" endpoint "" with
  | .error err => (.error err, log)
  | .ok req =>
    let req := authorize c req
    match clientDo env log req with
    | .error err => (.error err, log ++ [req])
    | .ok resp => (decodeResponse env env.decodeEmpty resp, log ++ [req])

/-- DestroyFromPackage removes a package through its own destroy URL. -/
def Client.DestroyFromPackage (env : Env) (c : Client) (p : Package)
    (log : List Request) : Except Error Unit × List Request :=
  let endpoint := ServiceBaseURL ++ "/" ++ p.DestroyURL
  match NewRequest env "DELETE" endpoint "" with
  | .error err => (.error err, log)
  | .ok req =>
    let req := authorize c req
    match clientDo env log req with
    | .error err => (.error err, log ++ [req])
    | .ok resp => (decodeResponse env env.decodeEmpty resp, log ++ [req])

/-- Promote posts the destination repository to the promote URL of a package. -/
def Client.Promote (env : Env) (c : Client) (p : Package) (repo : String)
    (log : List Request) : Except Error Unit × List Request :=
  let endpoint := ServiceBaseURL ++ "/" ++ p.PromoteURL
  let form := "destination=" ++ env.queryEscape repo
  match NewRequest env "POST" endpoint form with
  | .error err => (.error err, log)
  | .ok req =>
    let req := authorize c req
    match clientDo env log req with
    | .error err => (.error err, log ++ [req])
    | .ok resp => (decodeResponse env env.decodeEmpty resp, log ++ [req])

/-- Distributions retrieves all distribution descriptions. -/
def Client.Distributions (env : Env) (c : Client) (log : List Request) :
    Except Error Distributions × List Request :=
  let endpoint := ServiceURL ++ "/" ++ "distributions.json"
  match NewRequest env "GET" endpoint "" with
  | .error err => (.error err, log)
  | .ok req =>
    let req := authorize c req
    match clientDo env log req with
    | .error err => (.error err, log ++ [req])
    | .ok resp =>
      match decodeResponse env env.decodeDistributions resp with
      | .error err => (.error err, log ++ [req])
      | .ok distributions => (.ok distributions, log ++ [req])

/-- A Go `map[string]int`: every key occurs once in the list. -/
abbrev DistroMap := List (String × Int)

/-- The assignment `rv[k] = v`. -/
def DistroMap.set (rv : DistroMap) (k : String) (v : Int) : DistroMap :=
  (k, v) :: rv.filter (fun e => e.1 ≠ k)

/-- The lookup `v, ok := rv[k]`. -/
def DistroMap.get (rv : DistroMap) (k : String) : Option Int :=
  (rv.find? (fun e => e.1 = k)).map (fun e => e.2)

/-- The key `fmt.Sprintf("%s/%s", dist.IndexName, v.IndexName)`. -/
def distroKey (dist : Distribution) (v : DistributionVersion) : String :=
  dist.IndexName ++ "/" ++ v.IndexName

/-- The loop of SupportedDistros over a catalog that has been fetched: it
ranges over `d.Deb` and, inside, over the versions of each distribution. -/
def supportedDistrosOf (d : Distributions) : DistroMap :=
  d.Deb.foldl
    (fun rv dist => dist.Versions.foldl (fun rv v => rv.set (distroKey dist v) v.ID) rv)
    []

/-- SupportedDistros returns a map of distro strings like "ubuntu/xenial" to
distro ids. -/
def Client.SupportedDistros (env : Env) (c : Client) (log : List Request) :
    Except Error DistroMap × List Request :=
  match c.Distributions env log with
  | (.error err, log) => (.error err, log)
  | (.ok d, log) => (.ok (supportedDistrosOf d), log)

/-- The pairs of key and id of the versions of one distribution, in order. -/
def versionEntries (dist : Distribution) : List (String × Int) :=
  dist.Versions.map (fun v => (distroKey dist v, v.ID))

/-- The pairs of key and id of the deb family of a catalog, in catalog order. -/
def debEntries (d : Distributions) : List (String × Int) :=
  (d.Deb.map versionEntries).flatten

/-- The id of the last pair of a list that carries the key, if there is one. -/
def lastID (k : String) : List (String × Int) → Option Int
  | [] => none
  | e :: es =>
    match lastID k es with
    | some id => some id
    | none => if e.1 = k then some e.2 else none

/-- The part of CreatePackage after the distro has been resolved: build the
multipart request, send it, decode the answer. -/
def Client.createUpload (env : Env) (c : Client) (repo pkgFile : String)
    (extraParams : Option (List (String × String))) (log : List Request) :
    Except Error Unit × List Request :=
  let endpoint := ServiceURL ++ "/repos/" ++ repo ++ "/packages.json"
  match uploadNewRequest env endpoint extraParams "package[package_file]" pkgFile with
  | .error err => (.error err, log)
  | .ok request =>
    let request := authorize c request
    match clientDo env log request with
    | .error err => (.error err, log ++ [request])
    | .ok resp => (decodeResponse env env.decodeEmpty resp, log ++ [request])

/-- CreatePackage pushes a new package to packagecloud. -/
def Client.CreatePackage (env : Env) (c : Client) (repo distro pkgFile : String)
    (log : List Request) : Except Error Unit × List Request :=
  if distro ≠ "" then
    match c.SupportedDistros env log with
    | (.error err, log) => (.error err, log)
    | (.ok supportedDistros, log) =>
      match supportedDistros.get distro with
      | none => (.error ("invalid distro name: " ++ distro), log)
      | some distID =>
        c.createUpload env repo pkgFile
          (some [("package[distro_version_id]", Itoa distID)]) log
  else
    c.createUpload env repo pkgFile none log

/-! ## Pagination -/

/-- Paginated captures the pagination headers (`type Paginated struct`). -/
structure Paginated where
  Total : Int
  PerPage : Int
  MaxPerPage : Int
deriving DecidableEq, Repr

/-- The function values that are stored in `next` and in `rv.Next`, by the
variables they capture.  `first` is the literal of `cmd/all.go`,
`func() { return client.PaginatedAll(repo) }`; `linked` is the literal of
GetPaginatedPackages, `func() { return c.GetPaginatedPackages(link.URL) }`,
with the client and the link of the iteration in which it was created. -/
inductive NextFn where
  | first (client : Client) (repo : String)
  | linked (c : Client) (link : Link)
deriving DecidableEq, Repr

/-- PaginatedPackages captures the packages of a page, the function fetching
the next page (`none` is Go `nil`), and the pagination data. -/
structure PaginatedPackages where
  Packages : List Package
  Next : Option NextFn
  Paginated : Paginated
deriving DecidableEq, Repr

/-- ExtractPaginationHeaders reads `Total`, `Per-Page` and `Max-Per-Page`, in
that order, stopping at the first that is not an integer. -/
def ExtractPaginationHeaders (env : Env) (resp : Response) : Except Error Paginated :=
  match Atoi env resp.Total with
  | .error err => .error err
  | .ok total =>
    match Atoi env resp.PerPage with
    | .error err => .error err
    | .ok perPage =>
      match Atoi env resp.MaxPerPage with
      | .error err => .error err
      | .ok maxPerPage => .ok { Total := total, PerPage := perPage, MaxPerPage := maxPerPage }

/-- One iteration of the loop `for _, link := range links` of
GetPaginatedPackages, on the value of `rv.Next`: when `link.Rel == "next"`,
`rv.Next` is assigned the function literal, which captures the link of this
iteration (every iteration has its own variable `link`). -/
def linkStep (c : Client) (next : Option NextFn) (link : Link) : Option NextFn :=
  if link.Rel = "next" then some (NextFn.linked c link) else next

/-- The whole loop, from `rv.Next == nil`. -/
def rangeLinks (c : Client) (links : List Link) : Option NextFn :=
  links.foldl (linkStep c) none

/-- The last link of a header that has the relation "next", if there is
one. -/
def lastNext : List Link → Option Link
  | [] => none
  | l :: ls =>
    match lastNext ls with
    | some l2 => some l2
    | none => if l.Rel = "next" then some l else none

/-- GetPaginatedPackages gets one page of packages for an endpoint. -/
def Client.GetPaginatedPackages (env : Env) (c : Client) (endpoint : String)
    (log : List Request) : Except Error PaginatedPackages × List Request :=
  match NewRequest env "GET" endpoint "" with
  | .error err => (.error err, log)
  | .ok req =>
    let req := authorize c req
    match clientDo env log req with
    | .error err => (.error err, log ++ [req])
    | .ok resp =>
      match decodeResponse env env.decodePackages resp with
      | .error err => (.error err, log ++ [req])
      | .ok packages =>
        match ExtractPaginationHeaders env resp with
        | .error err => (.error err, log ++ [req])
        | .ok paginated =>
          (.ok { Packages := packages,
                 Next := rangeLinks c resp.Links,
                 Paginated := paginated },
           log ++ [req])

/-- PaginatedAll gets the first page of all packages of a repo. -/
def Client.PaginatedAll (env : Env) (c : Client) (repo : String) (log : List Request) :
    Except Error PaginatedPackages × List Request :=
  let endpoint := ServiceURL ++ "/repos/" ++ repo ++ "/packages.json"
  c.GetPaginatedPackages env endpoint log

/-- Calling a stored function value. -/
def NextFn.call (env : Env) (f : NextFn) (log : List Request) :
    Except Error PaginatedPackages × List Request :=
  match f with
  | .first client repo => client.PaginatedAll env repo log
  | .linked c link => c.GetPaginatedPackages env link.URL log

/-- The loop `for next != nil` of the `all` command (`cmd/all.go`), with the
packages accumulated so far.  `log.Fatalf` ends the run with its message.  The
loop has no bound of its own; `fuel` bounds the number of iterations and the
result is `none` when it does not suffice. -/
def allLoop (env : Env) :
    Nat → Option NextFn → List Package → List Request →
      Option (Except Error (List Package) × List Request)
  | _, none, packages, log => some (.ok packages, log)
  | 0, some _, _, _ => none
  | fuel + 1, some next, packages, log =>
    match next.call env log with
    | (.error err, log) => some (.error ("pagination error: " ++ err ++ "\n"), log)
    | (.ok paginatedPackages, log) =>
      allLoop env fuel paginatedPackages.Next (packages ++ paginatedPackages.Packages) log

/-- The iteration of the `all` command for a repo: it starts from the function
calling PaginatedAll with no package and no request sent. -/
def allPackages (env : Env) (fuel : Nat) (client : Client) (repo : String) :
    Option (Except Error (List Package) × List Request) :=
  allLoop env fuel (some (NextFn.first client repo)) [] []

/-- The GET request a client sends to an address. -/
def getRequest (c : Client) (url : String) : Request :=
  authorize c
    { Method := "GET", URL := url, Body := "", Params := none, File := none,
      Username := "", Password := "", UserAgentHeader := [] }

/-- A server that, from the requests it has been sent, serves a chain of
well-formed pages to a client: the pages are listed with their address and
their packages, the `Link` header of every page but the last one has a link
with the relation "next" and its links with that relation name the address of
the following page, and the last page has no link with the relation "next". -/
inductive ServesChain (env : Env) (c : Client) :
    List Request → List (String × List Package) → Prop where
  | last (log : List Request) (url : String) (resp : Response)
      (packages : List Package) (paginated : Paginated)
      (hreq : env.newRequestErr "GET" url = none)
      (hresp : env.Do log (getRequest c url) = .ok resp)
      (hdecode : decodeResponse env env.decodePackages resp = .ok packages)
      (hheaders : ExtractPaginationHeaders env resp = .ok paginated)
      (hlinks : ∀ l ∈ resp.Links, l.Rel ≠ "next") :
      ServesChain env c log [(url, packages)]
  | step (log : List Request) (url : String) (resp : Response)
      (packages : List Package) (paginated : Paginated)
      (nextURL : String) (nextPackages : List Package)
      (rest : List (String × List Package))
      (hreq : env.newRequestErr "GET" url = none)
      (hresp : env.Do log (getRequest c url) = .ok resp)
      (hdecode : decodeResponse env env.decodePackages resp = .ok packages)
      (hheaders : ExtractPaginationHeaders env resp = .ok paginated)
      (hnext : ∃ l ∈ resp.Links, l.Rel = "next")
      (hlinks : ∀ l ∈ resp.Links, l.Rel = "next" → l.URL = nextURL)
      (hrest : ServesChain env c (log ++ [getRequest c url])
        ((nextURL, nextPackages) :: rest)) :
      ServesChain env c log ((url, packages) :: (nextURL, nextPackages) :: rest)

/-! ## Credentials -/

/-- The operating system as NewClient reads it. -/
structure Host where
  /-- The value of an environment variable, empty when unset (`os.Getenv`). -/
  Getenv : String → String
  /-- The home directory of the current user, or the error of `user.Current`. -/
  userCurrent : Except Error String
  /-- Joining of path elements (`filepath.Join`). -/
  Join : String → String → String
  /-- Whether `os.Stat` of a path returns no error. -/
  statOk : String → Bool
  /-- The content read from a path, or the error of `os.Open`. -/
  Open : String → Except Error String
  /-- Decoding a file content into a `Client`. -/
  decodeClient : String → Except Error Client

/-- NewClient creates a packagecloud client from the token passed, the
environment or the file `.packagecloud` of the home directory. -/
def NewClient (h : Host) (token : String) : Except Error Client :=
  if token = "" then
    let token := h.Getenv "PACKAGECLOUD_TOKEN"
    if token = "" then
      match h.userCurrent with
      | .error err => .error err
      | .ok homeDir =>
        let pkfile := h.Join homeDir ".packagecloud"
        if h.statOk pkfile then
          match h.Open pkfile with
          | .error err => .error err
          | .ok fd =>
            match h.decodeClient fd with
            | .error err => .error err
            | .ok client => .ok client
        else
          .error "PACKAGECLOUD_TOKEN unset"
    else
      .ok { URL := ServiceBaseURL, Token := token }
  else
    .ok { URL := ServiceBaseURL, Token := token }

/-! ## Sample data

Concrete libraries and servers on which the definitions are evaluated. -/

/-- A package with the given name and file name. -/
def samplePackage (name : String) : Package :=
  { Name := name, CreatedAt := "", Epoch := 0, Scope := "", Private := false,
    UploaderName := "", Indexed := true, RepositoryHTMLURL := "", DownloadDetailsURL := "",
    DownloadSeriesURL := "", DownloadCountURL := "", PromoteURL := "", DestroyURL := "",
    Filename := name, DistroVersion := "", Version := "", Release := "", PkgType := "deb",
    PackageURL := "", PackageHTMLURL := "" }

/-- The body of a 422 answer naming one field with one message. -/
def takenBody : String := "\x7b\"filename\":[\"has already been taken\"]\x7d"

/-- What the JSON decoder answers, at `map[string][]string`, on the bodies of
the examples: the body `takenBody`, the empty object, an array, the empty body;
any other body is taken to be cut short. -/
def sampleDecodeErrors (body : String) : Except Error (List (String × List String)) :=
  if body = takenBody then .ok [("filename", ["has already been taken"])]
  else if body = "\x7b\x7d" then .ok []
  else if body = "[]" then
    .error "json: cannot unmarshal array into Go value of type map[string][]string"
  else if body = "" then .error "EOF"
  else .error "unexpected EOF"

/-- A catalog with one distribution in the deb family and one in the rpm
family. -/
def sampleCatalog : Distributions :=
  { Deb := [{ DisplayName := "Ubuntu", IndexName := "ubuntu",
              Versions := [{ ID := 165, DisplayName := "16.04 Xenial", IndexName := "xenial" }] }],
    Dsc := [],
    Rpm := [{ DisplayName := "Enterprise Linux", IndexName := "el",
              Versions := [{ ID := 140, DisplayName := "7", IndexName := "7" }] }] }

/-- A catalog whose deb family lists the version `xenial` of `ubuntu` twice,
with the ids 1 and 2. -/
def repeatedCatalog : Distributions :=
  { Deb := [{ DisplayName := "Ubuntu", IndexName := "ubuntu",
              Versions := [{ ID := 1, DisplayName := "16.04", IndexName := "xenial" },
                           { ID := 2, DisplayName := "16.04.1", IndexName := "xenial" }] }],
    Dsc := [],
    Rpm := [] }

/-- A successful answer of a package listing with the given body and links. -/
def pageResponse (body : String) (links : List Link) : Response :=
  { StatusCode := 200, Body := body, Total := "3", PerPage := "1", MaxPerPage := "1",
    Links := links }

/-- An answer with a status code and a body and no headers. -/
def plainResponse (code : Int) (body : String) : Response :=
  { StatusCode := code, Body := body, Total := "", PerPage := "", MaxPerPage := "",
    Links := [] }

/-- The address of the first page of the repo `u/r`. -/
def page1URL : String := "https://packagecloud.io/api/v1/repos/u/r/packages.json"

/-- The address of the second page of the repo `u/r`. -/
def page2URL : String := "https://packagecloud.io/api/v1/repos/u/r/packages.json?page=2"

/-- The address of the third page of the repo `u/r`. -/
def page3URL : String := "https://packagecloud.io/api/v1/repos/u/r/packages.json?page=3"

/-- A server holding three pages of the repo `u/r`, each naming its neighbours
in its `Link` header with the relation `next` before the relation `last`, the
catalog `sampleCatalog`, and the file `a.deb` in `u/r` for `ubuntu/xenial`. -/
def sampleDo (_ : List Request) (req : Request) : Except Error Response :=
  if req.URL = page1URL then
    .ok (pageResponse "a" [⟨page2URL, "next"⟩, ⟨page3URL, "last"⟩])
  else if req.URL = page2URL then
    .ok (pageResponse "b" [⟨page1URL, "first"⟩, ⟨page1URL, "prev"⟩, ⟨page3URL, "next"⟩,
      ⟨page3URL, "last"⟩])
  else if req.URL = page3URL then
    .ok (pageResponse "c" [⟨page1URL, "first"⟩, ⟨page2URL, "prev"⟩])
  else if req.URL = "https://packagecloud.io/api/v1/distributions.json" then
    .ok (plainResponse 200 "catalog")
  else if req.URL = "https://packagecloud.io//u/r/packages/ubuntu/xenial/a.deb" then
    .ok (plainResponse 200 "")
  else if req.Method = "POST" then
    .ok (plainResponse 422 takenBody)
  else
    .ok (plainResponse 404 "")

/-- The sample libraries with the sample server.  A listing body is read as the
name of the single package of the page, and a text is quoted by putting it
between double quotes, which is its quoted form when it has no character to
escape. -/
def sampleEnv : Env where
  decodeErrors := sampleDecodeErrors
  decodePackages := fun body => .ok [samplePackage body]
  decodeDistributions := fun _ => .ok sampleCatalog
  decodeEmpty := fun _ => .ok ()
  newRequestErr := fun _ _ => none
  uploadErr := fun _ => none
  queryEscape := fun s => s
  Quote := fun s => "\"" ++ s ++ "\""
  Do := sampleDo

/-- The sample libraries with a transport that fails on every request, with
the given cause. -/
def failingEnv (cause : Error) : Env :=
  { sampleEnv with Do := fun _ _ => .error cause }

/-- A client with the default base URL and the token `t`. -/
def sampleClient : Client := { URL := ServiceBaseURL, Token := "t" }

/-- The sample libraries with a server holding two pages of the repo `u/r`
whose first page names the second in the last link of its header, with the
relation "next". -/
def orderedEnv : Env :=
  { sampleEnv with
    Do := fun _ req =>
      if req.URL = page1URL then
        .ok (pageResponse "a" [⟨page2URL, "last"⟩, ⟨page2URL, "next"⟩])
      else if req.URL = page2URL then
        .ok (pageResponse "b" [⟨page1URL, "first"⟩, ⟨page1URL, "prev"⟩])
      else
        .ok (plainResponse 404 "") }

/-- The content of a credentials file naming `https://example.org/` and the
token `filetoken`. -/
def credentialsBody : String :=
  "\x7b\"url\":\"https://example.org/\",\"token\":\"filetoken\"\x7d"

/-- A host with the given token variable and, when a content is given, a
credentials file with that content in the home directory `/home/u`.  The
content `credentialsBody` decodes to the client it names; any other content is
taken to be empty. -/
def sampleHost (envToken : String) (file : Option String) : Host where
  Getenv := fun name => if name = "PACKAGECLOUD_TOKEN" then envToken else ""
  userCurrent := .ok "/home/u"
  Join := fun dir name => dir ++ "/" ++ name
  statOk := fun path => path = "/home/u/.packagecloud" ∧ file.isSome
  Open := fun _ =>
    match file with
    | some content => .ok content
    | none => .error "open /home/u/.packagecloud: no such file or directory"
  decodeClient := fun content =>
    if content = credentialsBody then
      .ok { URL := "https://example.org/", Token := "filetoken" }
    else .error "EOF"

/-! ## Commands

The commands of `cmd/push.go`, `cmd/destroy.go` and `cmd/all.go`.  A run ends
normally or with the message of `log.Fatalf`, and records, besides the requests
sent, every call of a client operation that changes the state of the
service. -/

/-- The pieces of a text between the occurrences of a separator. -/
def splitChars (sep : Char) : List Char → List (List Char)
  | [] => [[]]
  | c :: cs =>
    if c = sep then [] :: splitChars sep cs
    else
      match splitChars sep cs with
      | [] => [[c]]
      | p :: ps => (c :: p) :: ps

/-- Split follows `strings.Split` for a separator of one character. -/
def Split (s : String) (sep : Char) : List String :=
  (splitChars sep s.toList).map String.mk

/-- The local files as the push command reads them. -/
structure Files where
  /-- Whether `os.Stat` of a path fails with an error that `os.IsNotExist`
  accepts. -/
  IsNotExist : String → Bool
  /-- The last element of a path (`filepath.Base`). -/
  Base : String → String

/-- A call of a client operation that changes the state of the service. -/
inductive Change where
  | Destroy (repo packageFilename : String)
  | DestroyFromPackage (p : Package)
  | Promote (p : Package) (repo : String)
  | CreatePackage (repo distro pkgFile : String)
deriving DecidableEq, Repr

/-- What a run of a command leaves: how it ended (`log.Fatalf` ends it with a
message), the state-changing client operations it called, in order, and the
requests sent, in order. -/
structure Run where
  outcome : Except Error Unit
  changes : List Change
  log : List Request

/-- The HEAD request Exists sends for a file. -/
def headRequest (c : Client) (repo distro packageFilename : String) : Request :=
  authorize c
    { Method := "HEAD",
      URL := ServiceBaseURL ++ "/" ++ repo ++ "/packages/" ++ distro ++ "/" ++ packageFilename,
      Body := "", Params := none, File := none, Username := "", Password := "",
      UserAgentHeader := [] }

/-- Modelled from the spec: `NewClient` of the client package that
`cmd/push.go` imports, `github.com/edwarnicke/pkgcloud/pkgcloudlib`, which is
not among the sources.  The spec describes a single client library, so the
credential resolver is taken to be NewClient of `pkgcloudlib/pkgcloud.go`. -/
def upstreamNewClient (h : Host) (token : String) : Except Error Client :=
  NewClient h token

/-- Modelled from the spec: `Exists` of the client package that `cmd/push.go`
imports, which is not among the sources; the HEAD existence check of the spec,
taken to be Exists of `pkgcloudlib/pkgcloud.go`. -/
def upstreamExists (env : Env) (c : Client) (repo distro packageFilename : String)
    (log : List Request) : Except Error Bool × List Request :=
  c.Exists env repo distro packageFilename log

/-- Modelled from the spec: `Destroy` of the client package that `cmd/push.go`
imports, which is not among the sources; the DELETE by path of the spec, taken
to be Destroy of `pkgcloudlib/pkgcloud.go`. -/
def upstreamDestroy (env : Env) (c : Client) (repo packageFilename : String)
    (log : List Request) : Except Error Unit × List Request :=
  c.Destroy env repo packageFilename log

/-- Modelled from the spec: `CreatePackage` of the client package that
`cmd/push.go` imports, which is not among the sources; the upload of the spec,
taken to be CreatePackage of `pkgcloudlib/pkgcloud.go`. -/
def upstreamCreatePackage (env : Env) (c : Client) (repo distro pkgFile : String)
    (log : List Request) : Except Error Unit × List Request :=
  c.CreatePackage env repo distro pkgFile log

/-- The second loop of the push command, over the paths `args[1:]`. -/
def pushLoop (env : Env) (fs : Files) (DryRun force : Bool) (client : Client)
    (repo distro : String) : List String → List Change → List Request → Run
  | [], changes, log => { outcome := .ok (), changes := changes, log := log }
  | path :: rest, changes, log =>
    let repodistro := repo ++ "/" ++ distro
    let filename := fs.Base path
    if !DryRun then
      match upstreamExists env client repo distro filename log with
      | (.error err, log) =>
        { outcome := .error ("error: " ++ err ++ "\n"), changes := changes, log := log }
      | (.ok found, log) =>
        if found then
          if !force then
            { outcome := .error ("package " ++ filename ++ " already exists in repo " ++ repo ++
                "/" ++ distro ++ ", use -f to force overwrite"),
              changes := changes, log := log }
          else
            match upstreamDestroy env client repodistro filename log with
            | (.error err, log) =>
              { outcome := .error ("error deleting " ++ filename ++ " from " ++ repodistro ++
                  " in preparation for overwrite: " ++ err ++ "\n"),
                changes := changes ++ [Change.Destroy repodistro filename], log := log }
            | (.ok _, log) =>
              match upstreamCreatePackage env client repo distro path log with
              | (.error err, log) =>
                { outcome := .error ("error: " ++ err ++ "\n"),
                  changes := changes ++ [Change.Destroy repodistro filename,
                    Change.CreatePackage repo distro path],
                  log := log }
              | (.ok _, log) =>
                pushLoop env fs DryRun force client repo distro rest
                  (changes ++ [Change.Destroy repodistro filename,
                    Change.CreatePackage repo distro path]) log
        else
          match upstreamCreatePackage env client repo distro path log with
          | (.error err, log) =>
            { outcome := .error ("error: " ++ err ++ "\n"),
              changes := changes ++ [Change.CreatePackage repo distro path], log := log }
          | (.ok _, log) =>
            pushLoop env fs DryRun force client repo distro rest
              (changes ++ [Change.CreatePackage repo distro path]) log
    else
      match upstreamExists env client repo distro filename log with
      | (.error err, log) =>
        { outcome := .error ("error: " ++ err ++ "\n"), changes := changes, log := log }
      | (.ok found, log) =>
        if found then
          if !force then
            { outcome := .error ("Dry Run package " ++ filename ++ " already exists in repo " ++
                repo ++ "/" ++ distro ++ ", use -f to force overwrite"),
              changes := changes, log := log }
          else
            pushLoop env fs DryRun force client repo distro rest changes log
        else
          pushLoop env fs DryRun force client repo distro rest changes log

/-- The push command: `target` is `args[0]`, `files` is `args[1:]`. -/
def pushCmd (env : Env) (h : Host) (fs : Files) (DryRun force : Bool)
    (target : String) (files : List String) : Run :=
  match Split target '/' with
  | [p0, p1, p2, p3] =>
    let repo := p0 ++ "/" ++ p1
    let distro := p2 ++ "/" ++ p3
    match upstreamNewClient h "" with
    | .error err => { outcome := .error ("error: " ++ err ++ "\n"), changes := [], log := [] }
    | .ok client =>
      match files.find? fs.IsNotExist with
      | some path => { outcome := .error (path ++ " does not exist"), changes := [], log := [] }
      | none => pushLoop env fs DryRun force client repo distro files [] []
  | _ =>
    { outcome := .error (target ++ " is not of form user/repo/distro/version/"),
      changes := [], log := [] }

/-- The loop of the destroy command, over the file names `args[1:]`. -/
def destroyLoop (env : Env) (DryRun : Bool) (client : Client) (repo distro : String) :
    List String → List Change → List Request → Run
  | [], changes, log => { outcome := .ok (), changes := changes, log := log }
  | filename :: rest, changes, log =>
    let repodistro := repo ++ "/" ++ distro
    match client.Exists env repo distro filename log with
    | (.error err, log) =>
      { outcome := .error ("error: " ++ err ++ "\n"), changes := changes, log := log }
    | (.ok found, log) =>
      if found then
        if !DryRun then
          match client.Destroy env repodistro filename log with
          | (.error err, log) =>
            { outcome := .error ("error deleting " ++ filename ++ " from " ++ repodistro ++
                " in preparation for overwrite: " ++ err ++ "\n"),
              changes := changes ++ [Change.Destroy repodistro filename], log := log }
          | (.ok _, log) =>
            destroyLoop env DryRun client repo distro rest
              (changes ++ [Change.Destroy repodistro filename]) log
        else
          destroyLoop env DryRun client repo distro rest changes log
      else
        destroyLoop env DryRun client repo distro rest changes log

/-- The destroy command: `target` is `args[0]`, `files` is `args[1:]`. -/
def destroyCmd (env : Env) (h : Host) (DryRun : Bool)
    (target : String) (files : List String) : Run :=
  match Split target '/' with
  | [p0, p1, p2, p3] =>
    let repo := p0 ++ "/" ++ p1
    let distro := p2 ++ "/" ++ p3
    match NewClient h "" with
    | .error err => { outcome := .error ("error: " ++ err ++ "\n"), changes := [], log := [] }
    | .ok client => destroyLoop env DryRun client repo distro files [] []
  | _ =>
    { outcome := .error (target ++ " is not of form user/repo/distro/version/"),
      changes := [], log := [] }

/-- The existence check of a path, made after the requests of a log, lets the
dry run of push go on to the next path: the file is not there, or it is there
and the force flag is set. -/
def pushPass (env : Env) (fs : Files) (force : Bool) (client : Client)
    (repo distro path : String) (log : List Request) : Prop :=
  (upstreamExists env client repo distro (fs.Base path) log).1 = .ok false ∨
    ((upstreamExists env client repo distro (fs.Base path) log).1 = .ok true ∧ force = true)

/-- Every path of a list lets the dry run of push go on, each check being made
after the requests of the checks before it. -/
def pushPassAll (env : Env) (fs : Files) (force : Bool) (client : Client)
    (repo distro : String) : List String → List Request → Prop
  | [], _ => True
  | path :: rest, log =>
    pushPass env fs force client repo distro path log ∧
      pushPassAll env fs force client repo distro rest
        (log ++ [headRequest client repo distro (fs.Base path)])

/-- The existence check of a file name, made after the requests of a log, lets
the destroy command go on to the next file name: the check is answered. -/
def destroyPass (env : Env) (client : Client) (repo distro filename : String)
    (log : List Request) : Prop :=
  ∃ found : Bool, (client.Exists env repo distro filename log).1 = .ok found

/-- Every file name of a list lets the destroy command go on, each check being
made after the requests of the checks before it. -/
def destroyPassAll (env : Env) (client : Client) (repo distro : String) :
    List String → List Request → Prop
  | [], _ => True
  | filename :: rest, log =>
    destroyPass env client repo distro filename log ∧
      destroyPassAll env client repo distro rest
        (log ++ [headRequest client repo distro filename])

/-- A mark a template leaves on a package while it is rendered: the method
`Destroy` of the wrapper, or its method `Promote` with a repo. -/
inductive Mark where
  | Destroy
  | Promote (repo : String)
deriving DecidableEq, Repr

/-- The repo of the last `Promote` mark of a list, if there is one: the entry
a wrapper has in the map `packagesToPromote`. -/
def lastPromote : List Mark → Option String
  | [] => none
  | m :: ms =>
    match lastPromote ms with
    | some repo => some repo
    | none =>
      match m with
      | Mark.Promote repo => some repo
      | Mark.Destroy => none

/-- The list `packagesToDestroy` after the templates of the packages have been
executed, in order; `tmpl i p` are the marks of the execution number `i`, on
the package `p`. -/
def markedToDestroy (tmpl : Nat → Package → List Mark) : Nat → List Package → List Package
  | _, [] => []
  | i, p :: ps =>
    ((tmpl i p).filter (fun m => m = Mark.Destroy)).map (fun _ => p) ++
      markedToDestroy tmpl (i + 1) ps

/-- The entries of the map `packagesToPromote` after the templates of the
packages have been executed, by order of execution. -/
def markedToPromote (tmpl : Nat → Package → List Mark) :
    Nat → List Package → List (Package × String)
  | _, [] => []
  | i, p :: ps =>
    (match lastPromote (tmpl i p) with
      | some repo => [(p, repo)]
      | none => []) ++ markedToPromote tmpl (i + 1) ps

/-- The loop over `packagesToPromote` of the all command. -/
def promoteMarked (env : Env) (client : Client) :
    List (Package × String) → List Change → List Request → Run
  | [], changes, log => { outcome := .ok (), changes := changes, log := log }
  | (p, r) :: rest, changes, log =>
    match client.Promote env p r log with
    | (.error err, log) =>
      { outcome := .error ("Error Promoting to " ++ r ++ " : " ++ p.PromoteURL ++ " : " ++ err),
        changes := changes ++ [Change.Promote p r], log := log }
    | (.ok _, log) => promoteMarked env client rest (changes ++ [Change.Promote p r]) log

/-- The loop over `packagesToDestroy` of the all command, followed by the loop
over `packagesToPromote`. -/
def destroyMarked (env : Env) (client : Client) (toPromote : List (Package × String)) :
    List Package → List Change → List Request → Run
  | [], changes, log => promoteMarked env client toPromote changes log
  | p :: rest, changes, log =>
    match client.DestroyFromPackage env p log with
    | (.error err, log) =>
      { outcome := .error ("Error when trying to Destroy " ++ p.PackageHTMLURL ++ " : " ++ err),
        changes := changes ++ [Change.DestroyFromPackage p], log := log }
    | (.ok _, log) =>
      destroyMarked env client toPromote rest (changes ++ [Change.DestroyFromPackage p]) log

/-- The all command for a repo, with a template that has been parsed.  The
template is executed on every package in
the order in which the packages are accumulated, so the marks are those of the
accumulated list; `mapOrder` is the order in which the `range` over the map
`packagesToPromote` visits its entries.  The result is `none` when the fuel of
the listing does not suffice. -/
def allCmd (env : Env) (h : Host) (tmpl : Nat → Package → List Mark)
    (mapOrder : List (Package × String) → List (Package × String))
    (DryRun : Bool) (fuel : Nat) (repo : String) : Option Run :=
  match NewClient h "" with
  | .error err =>
    some { outcome := .error ("error: " ++ err ++ "\n"), changes := [], log := [] }
  | .ok client =>
    match allPackages env fuel client repo with
    | none => none
    | some (.error msg, log) => some { outcome := .error msg, changes := [], log := log }
    | some (.ok packages, log) =>
      if !DryRun then
        some (destroyMarked env client (mapOrder (markedToPromote tmpl 0 packages))
          (markedToDestroy tmpl 0 packages) [] log)
      else
        some { outcome := .ok (), changes := [], log := log }

/-- The replacement of the URL of the client a stored function captures. -/
def NextFn.withURL (url : String) : NextFn → NextFn
  | .first client repo => .first { client with URL := url } repo
  | .linked c link => .linked { c with URL := url } link

/-- The local files of the examples: every path exists, and the last element
of a path is what follows its last slash. -/
def sampleFiles : Files where
  IsNotExist := fun _ => false
  Base := fun path => String.mk ((splitChars '/' path.toList).getLastD [])

/-- A template that marks every package for destruction and for promotion to
the repo `u/stable`. -/
def markAll (_ : Nat) (_ : Package) : List Mark :=
  [Mark.Destroy, Mark.Promote "u/stable"]

/-! ## Response decoder: theorems -/

/-- Claim C1. decodeResponse follows the table of status codes: with 200 or 201
the result is the result of decoding the body into the target; with 401 and 404
it is the error carrying the status text; with any code other than 200, 201,
401, 404 and 422 it is the error "unexpected HTTP status: " followed by the
code; and outside 200, 201 and 422 the result is the same for every body. -/
theorem decodeResponse_status_table {α : Type} (env : Env)
    (decode : String → Except Error α) (resp : Response) :
    ((resp.StatusCode = 200 ∨ resp.StatusCode = 201) →
        decodeResponse env decode resp = decode resp.Body) ∧
    (resp.StatusCode = 401 →
        decodeResponse env decode resp = .error "HTTP status: Unauthorized") ∧
    (resp.StatusCode = 404 →
        decodeResponse env decode resp = .error "HTTP status: Not Found") ∧
    ((resp.StatusCode ≠ 200 ∧ resp.StatusCode ≠ 201 ∧ resp.StatusCode ≠ 401 ∧
        resp.StatusCode ≠ 404 ∧ resp.StatusCode ≠ 422) →
        decodeResponse env decode resp =
          .error ("unexpected HTTP status: " ++ Itoa resp.StatusCode)) ∧
    ((resp.StatusCode ≠ 200 ∧ resp.StatusCode ≠ 201 ∧ resp.StatusCode ≠ 422) →
        ∀ body : String,
          decodeResponse env decode { resp with Body := body } =
            decodeResponse env decode resp) := by
  refine ⟨?_, ?_, ?_, ?_, ?_⟩
  · intro h
    simp [decodeResponse, h]
  · intro h
    simp [decodeResponse, h, StatusText]
  · intro h
    simp [decodeResponse, h, StatusText]
  · rintro ⟨h1, h2, h3, h4, h5⟩
    simp [decodeResponse, h1, h2, h3, h4, h5]
  · rintro ⟨h1, h2, h5⟩ body
    simp [decodeResponse, h1, h2, h5]

/-- The table of C1 at the codes 201, 401, 404 and 500 on the sample
decoder. -/
theorem decodeResponse_status_table_witness :
    decodeResponse sampleEnv sampleEnv.decodePackages (plainResponse 201 "a") =
        .ok [samplePackage "a"] ∧
    decodeResponse sampleEnv sampleEnv.decodePackages (plainResponse 401 "a") =
        .error "HTTP status: Unauthorized" ∧
    decodeResponse sampleEnv sampleEnv.decodePackages (plainResponse 404 "a") =
        .error "HTTP status: Not Found" ∧
    decodeResponse sampleEnv sampleEnv.decodePackages (plainResponse 500 "a") =
        .error "unexpected HTTP status: 500" :=
  ⟨(decodeResponse_status_table sampleEnv sampleEnv.decodePackages
      (plainResponse 201 "a")).1 (Or.inr rfl),
   (decodeResponse_status_table sampleEnv sampleEnv.decodePackages
      (plainResponse 401 "a")).2.1 rfl,
   (decodeResponse_status_table sampleEnv sampleEnv.decodePackages
      (plainResponse 404 "a")).2.2.1 rfl,
   (decodeResponse_status_table sampleEnv sampleEnv.decodePackages
      (plainResponse 500 "a")).2.2.2.1 (by decide)⟩

/-- Claim C2. When the body of a 422 answer decodes to a mapping with a single
field whose list of messages is not empty, decodeResponse fails with exactly
the first message of that list. -/
theorem decodeResponse_422_first_message {α : Type} (env : Env)
    (decode : String → Except Error α) (resp : Response)
    (field msg : String) (msgs : List String)
    (hstatus : resp.StatusCode = 422)
    (hbody : env.decodeErrors resp.Body = .ok [(field, msg :: msgs)]) :
    decodeResponse env decode resp = .error msg := by
  simp [decodeResponse, hstatus, hbody, firstMessage]

/-- The example of C2: the body naming `filename` with the message
"has already been taken" gives exactly that message. -/
theorem decodeResponse_422_first_message_witness :
    sampleEnv.decodeErrors takenBody = .ok [("filename", ["has already been taken"])] ∧
    decodeResponse sampleEnv sampleEnv.decodeEmpty (plainResponse 422 takenBody) =
      .error "has already been taken" :=
  ⟨rfl, decodeResponse_422_first_message sampleEnv sampleEnv.decodeEmpty
    (plainResponse 422 takenBody) "filename" "has already been taken" [] rfl rfl⟩

/-- Claim C10, as stated, fails: the array body and the empty body cannot be
decoded into a mapping, and the 422 answers carrying them make decodeResponse
fail with the error of the decoder, which is not "invalid HTTP body". -/
theorem decodeResponse_422_unparsable_counterexample :
    (sampleEnv.decodeErrors "[]" =
        .error "json: cannot unmarshal array into Go value of type map[string][]string" ∧
      decodeResponse sampleEnv sampleEnv.decodeEmpty (plainResponse 422 "[]") =
        .error "json: cannot unmarshal array into Go value of type map[string][]string" ∧
      decodeResponse sampleEnv sampleEnv.decodeEmpty (plainResponse 422 "[]") ≠
        .error "invalid HTTP body") ∧
    (sampleEnv.decodeErrors "" = .error "EOF" ∧
      decodeResponse sampleEnv sampleEnv.decodeEmpty (plainResponse 422 "") = .error "EOF" ∧
      decodeResponse sampleEnv sampleEnv.decodeEmpty (plainResponse 422 "") ≠
        .error "invalid HTTP body") := by
  refine ⟨⟨rfl, rfl, ?_⟩, ⟨rfl, rfl, ?_⟩⟩
  · intro h
    have h2 : decodeResponse sampleEnv sampleEnv.decodeEmpty (plainResponse 422 "[]") =
        .error "json: cannot unmarshal array into Go value of type map[string][]string" := rfl
    rw [h2] at h
    exact absurd (Except.error.inj h) (by decide)
  · intro h
    have h2 : decodeResponse sampleEnv sampleEnv.decodeEmpty (plainResponse 422 "") =
        .error "EOF" := rfl
    rw [h2] at h
    exact absurd (Except.error.inj h) (by decide)

/-- Claim C10, amended. For a 422 answer, when the body cannot be decoded into
a mapping, decodeResponse fails with the error of the decoder, unchanged; when
the body decodes and the first field visited carries no message (or there is
no field), it fails with "invalid HTTP body"; and when the body decodes and
the first field visited carries a message, it fails with the first message of
that field. -/
theorem decodeResponse_422_decode_error {α : Type} (env : Env)
    (decode : String → Except Error α) (resp : Response)
    (hstatus : resp.StatusCode = 422) :
    (∀ err : Error, env.decodeErrors resp.Body = .error err →
        decodeResponse env decode resp = .error err) ∧
    (∀ v : List (String × List String), env.decodeErrors resp.Body = .ok v →
        firstMessage v = none →
        decodeResponse env decode resp = .error "invalid HTTP body") ∧
    (∀ (v : List (String × List String)) (msg : String),
        env.decodeErrors resp.Body = .ok v →
        firstMessage v = some msg →
        decodeResponse env decode resp = .error msg) := by
  refine ⟨?_, ?_, ?_⟩
  · intro err hbody
    simp [decodeResponse, hstatus, hbody]
  · intro v hbody hnone
    simp [decodeResponse, hstatus, hbody, hnone]
  · intro v msg hbody hsome
    simp [decodeResponse, hstatus, hbody, hsome]

/-- The amended C10 on the array body, on the empty object and on the body
that names one field with one message. -/
theorem decodeResponse_422_decode_error_witness :
    decodeResponse sampleEnv sampleEnv.decodeEmpty (plainResponse 422 "[]") =
        .error "json: cannot unmarshal array into Go value of type map[string][]string" ∧
    decodeResponse sampleEnv sampleEnv.decodeEmpty (plainResponse 422 "\x7b\x7d") =
        .error "invalid HTTP body" ∧
    decodeResponse sampleEnv sampleEnv.decodeEmpty (plainResponse 422 takenBody) =
        .error "has already been taken" :=
  ⟨(decodeResponse_422_decode_error sampleEnv sampleEnv.decodeEmpty
      (plainResponse 422 "[]") rfl).1 _ rfl,
   (decodeResponse_422_decode_error sampleEnv sampleEnv.decodeEmpty
      (plainResponse 422 "\x7b\x7d") rfl).2.1 [] rfl rfl,
   (decodeResponse_422_decode_error sampleEnv sampleEnv.decodeEmpty
      (plainResponse 422 takenBody) rfl).2.2 _ _ rfl rfl⟩

/-! ## Credentials: theorems -/

/-- Claim C5, as stated, fails: with no explicit token, no PACKAGECLOUD_TOKEN
and a credentials file that exists, is empty and so cannot be decoded, none of
the three sources is available, and NewClient fails with the error of the
decoder, "EOF", not with "PACKAGECLOUD_TOKEN unset". -/
theorem NewClient_unparsable_file_counterexample :
    (sampleHost "" (some "")).Getenv "PACKAGECLOUD_TOKEN" = "" ∧
    (sampleHost "" (some "")).statOk "/home/u/.packagecloud" = true ∧
    (sampleHost "" (some "")).Open "/home/u/.packagecloud" = .ok "" ∧
    (sampleHost "" (some "")).decodeClient "" = .error "EOF" ∧
    NewClient (sampleHost "" (some "")) "" = .error "EOF" ∧
    NewClient (sampleHost "" (some "")) "" ≠ .error "PACKAGECLOUD_TOKEN unset" := by
  refine ⟨rfl, rfl, rfl, rfl, rfl, ?_⟩
  intro h
  have h2 : NewClient (sampleHost "" (some "")) "" = .error "EOF" := rfl
  rw [h2] at h
  exact absurd (Except.error.inj h) (by decide)

/-- Claim C5, amended. NewClient takes the first credential source that is
there, in the order explicit token, PACKAGECLOUD_TOKEN, credentials file: a
non-empty token gives the default base URL with that token on every host;
otherwise a non-empty PACKAGECLOUD_TOKEN gives the default base URL with its
value, whatever the credentials file; otherwise a credentials file that
exists, opens and decodes gives the client decoded from it.  With no token and
no PACKAGECLOUD_TOKEN, the result is the error "PACKAGECLOUD_TOKEN unset" when
the credentials file does not exist, and it is the error of the failing step
when the current user cannot be determined or when the file exists and cannot
be opened or decoded. -/
theorem NewClient_first_source (h : Host) (token : String) :
    (token ≠ "" →
        NewClient h token = .ok { URL := ServiceBaseURL, Token := token } ∧
        ∀ h2 : Host, NewClient h2 token = NewClient h token) ∧
    (token = "" → h.Getenv "PACKAGECLOUD_TOKEN" ≠ "" →
        NewClient h token =
          .ok { URL := ServiceBaseURL, Token := h.Getenv "PACKAGECLOUD_TOKEN" } ∧
        ∀ h2 : Host, h2.Getenv "PACKAGECLOUD_TOKEN" = h.Getenv "PACKAGECLOUD_TOKEN" →
          NewClient h2 token = NewClient h token) ∧
    (∀ (homeDir fd : String) (client : Client),
        token = "" → h.Getenv "PACKAGECLOUD_TOKEN" = "" →
        h.userCurrent = .ok homeDir →
        h.statOk (h.Join homeDir ".packagecloud") = true →
        h.Open (h.Join homeDir ".packagecloud") = .ok fd →
        h.decodeClient fd = .ok client →
        NewClient h token = .ok client) ∧
    (∀ homeDir : String,
        token = "" → h.Getenv "PACKAGECLOUD_TOKEN" = "" →
        h.userCurrent = .ok homeDir →
        h.statOk (h.Join homeDir ".packagecloud") = false →
        NewClient h token = .error "PACKAGECLOUD_TOKEN unset") ∧
    (∀ err : Error,
        token = "" → h.Getenv "PACKAGECLOUD_TOKEN" = "" →
        h.userCurrent = .error err →
        NewClient h token = .error err) ∧
    (∀ (homeDir : String) (err : Error),
        token = "" → h.Getenv "PACKAGECLOUD_TOKEN" = "" →
        h.userCurrent = .ok homeDir →
        h.statOk (h.Join homeDir ".packagecloud") = true →
        h.Open (h.Join homeDir ".packagecloud") = .error err →
        NewClient h token = .error err) ∧
    (∀ (homeDir fd : String) (err : Error),
        token = "" → h.Getenv "PACKAGECLOUD_TOKEN" = "" →
        h.userCurrent = .ok homeDir →
        h.statOk (h.Join homeDir ".packagecloud") = true →
        h.Open (h.Join homeDir ".packagecloud") = .ok fd →
        h.decodeClient fd = .error err →
        NewClient h token = .error err) := by
  refine ⟨?_, ?_, ?_, ?_, ?_, ?_, ?_⟩
  · intro ht
    constructor
    · simp [NewClient, ht]
    · intro h2
      simp [NewClient, ht]
  · intro ht he
    constructor
    · simp [NewClient, ht, he]
    · intro h2 h2e
      simp [NewClient, ht, he, h2e]
  · intro homeDir fd client ht he hu hs ho hd
    simp [NewClient, ht, he, hu, hs, ho, hd]
  · intro homeDir ht he hu hs
    simp [NewClient, ht, he, hu, hs]
  · intro err ht he hu
    simp [NewClient, ht, he, hu]
  · intro homeDir err ht he hu hs ho
    simp [NewClient, ht, he, hu, hs, ho]
  · intro homeDir fd err ht he hu hs ho hd
    simp [NewClient, ht, he, hu, hs, ho, hd]

/-- The cases of the amended C5 on sample hosts: an explicit token wins over
the variable and the file, the variable wins over the file, the file is used
when both are empty, without any of them the error "PACKAGECLOUD_TOKEN unset"
is returned, and an empty file gives the error of the decoder. -/
theorem NewClient_first_source_witness :
    NewClient (sampleHost "envtoken" (some credentialsBody)) "arg" =
        .ok { URL := ServiceBaseURL, Token := "arg" } ∧
    NewClient (sampleHost "envtoken" (some credentialsBody)) "" =
        .ok { URL := ServiceBaseURL, Token := "envtoken" } ∧
    NewClient (sampleHost "" (some credentialsBody)) "" =
        .ok { URL := "https://example.org/", Token := "filetoken" } ∧
    NewClient (sampleHost "" none) "" = .error "PACKAGECLOUD_TOKEN unset" ∧
    NewClient (sampleHost "" (some "")) "" = .error "EOF" :=
  ⟨((NewClient_first_source (sampleHost "envtoken" (some credentialsBody)) "arg").1
      (by decide)).1,
   ((NewClient_first_source (sampleHost "envtoken" (some credentialsBody)) "").2.1
      rfl (by decide)).1,
   (NewClient_first_source (sampleHost "" (some credentialsBody)) "").2.2.1
      "/home/u" credentialsBody _ rfl rfl rfl (by decide) rfl rfl,
   (NewClient_first_source (sampleHost "" none) "").2.2.2.1 "/home/u" rfl rfl rfl
      (by decide),
   (NewClient_first_source (sampleHost "" (some "")) "").2.2.2.2.2.2
      "/home/u" "" "EOF" rfl rfl rfl (by decide) rfl rfl⟩

/-! ## Existence check: theorems -/

/-- Claim C6. Whenever the HEAD request of Exists is built and receives a
response, Exists returns no error, and returns true exactly when the status of
the response is 200. -/
theorem Exists_true_iff_status_200 (env : Env) (c : Client)
    (repo distro packageFilename : String) (log : List Request)
    (req : Request) (resp : Response)
    (hreq : NewRequest env "HEAD"
      (ServiceBaseURL ++ "/" ++ repo ++ "/packages/" ++ distro ++ "/" ++ packageFilename) "" =
        .ok req)
    (hresp : env.Do log (authorize c req) = .ok resp) :
    (c.Exists env repo distro packageFilename log).1 = .ok (decide (resp.StatusCode = 200)) ∧
    (resp.StatusCode = 200 →
      (c.Exists env repo distro packageFilename log).1 = .ok true) ∧
    (resp.StatusCode ≠ 200 →
      (c.Exists env repo distro packageFilename log).1 = .ok false) := by
  have key : (c.Exists env repo distro packageFilename log).1 =
      .ok (decide (resp.StatusCode = 200)) := by
    by_cases h : resp.StatusCode = 200
    · simp [Client.Exists, hreq, clientDo, hresp, h]
    · simp [Client.Exists, hreq, clientDo, hresp, h]
  refine ⟨key, ?_, ?_⟩
  · intro h
    rw [key]
    simp [h]
  · intro h
    rw [key]
    simp [h]

/-- The cases 200 and 404 of C6 on the sample server, which holds `a.deb` and
does not hold `b.deb`. -/
theorem Exists_true_iff_status_200_witness :
    (sampleClient.Exists sampleEnv "u/r" "ubuntu/xenial" "a.deb" []).1 = .ok true ∧
    (sampleClient.Exists sampleEnv "u/r" "ubuntu/xenial" "b.deb" []).1 = .ok false :=
  ⟨(Exists_true_iff_status_200 sampleEnv sampleClient "u/r" "ubuntu/xenial" "a.deb" []
      _ (plainResponse 200 "") rfl rfl).2.1 rfl,
   (Exists_true_iff_status_200 sampleEnv sampleClient "u/r" "ubuntu/xenial" "b.deb" []
      _ (plainResponse 404 "") rfl rfl).2.2 (by decide)⟩

/-- The text of a `url.Error` of a HEAD request is never the text
"HTTP status: Not Found": it starts with the operation `Head`. -/
theorem head_error_text_ne (quoted cause : String) :
    "Head" ++ " " ++ quoted ++ ": " ++ cause ≠ "HTTP status: Not Found" := by
  intro h
  have hd := congrArg String.data h
  simp only [String.data_append] at hd
  simp at hd

/-- Claim C7. When the HEAD request of Exists is built and the transport fails,
whatever the cause, Exists returns a non-nil error, the `url.Error` that wraps
the cause, and so does not report the failure as false without an error. -/
theorem Exists_transport_failure (env : Env) (c : Client)
    (repo distro packageFilename : String) (log : List Request)
    (req : Request) (cause : Error)
    (hreq : NewRequest env "HEAD"
      (ServiceBaseURL ++ "/" ++ repo ++ "/packages/" ++ distro ++ "/" ++ packageFilename) "" =
        .ok req)
    (hfail : env.Do log (authorize c req) = .error cause) :
    (c.Exists env repo distro packageFilename log).1 =
      .error ("Head" ++ " " ++ env.Quote req.URL ++ ": " ++ cause) ∧
    (∀ found : Bool, (c.Exists env repo distro packageFilename log).1 ≠ .ok found) := by
  have hm : req.Method = "HEAD" := by
    unfold NewRequest at hreq
    split at hreq
    · simp at hreq
    · simp only [Except.ok.injEq] at hreq
      rw [← hreq]
  have hop : urlErrorText env (authorize c req) cause =
      "Head" ++ " " ++ env.Quote req.URL ++ ": " ++ cause := by
    simp only [urlErrorText, authorize, hm]
    rfl
  have key : (c.Exists env repo distro packageFilename log).1 =
      .error ("Head" ++ " " ++ env.Quote req.URL ++ ": " ++ cause) := by
    simp only [Client.Exists, hreq, clientDo, hfail, hop]
    rw [if_neg (head_error_text_ne (env.Quote req.URL) cause)]
  refine ⟨key, ?_⟩
  intro found h
  rw [key] at h
  simp at h

/-- The claim C7 on transports that fail with "no such host" and with the text
"HTTP status: Not Found" as the cause: in both cases Exists returns the error
that wraps the cause. -/
theorem Exists_transport_failure_witness :
    (sampleClient.Exists (failingEnv "dial tcp: lookup packagecloud.io: no such host")
        "u/r" "ubuntu/xenial" "a.deb" []).1 =
      .error ("Head" ++ " " ++
        "\"https://packagecloud.io//u/r/packages/ubuntu/xenial/a.deb\"" ++ ": " ++
        "dial tcp: lookup packagecloud.io: no such host") ∧
    (sampleClient.Exists (failingEnv "HTTP status: Not Found")
        "u/r" "ubuntu/xenial" "a.deb" []).1 =
      .error ("Head" ++ " " ++
        "\"https://packagecloud.io//u/r/packages/ubuntu/xenial/a.deb\"" ++ ": " ++
        "HTTP status: Not Found") :=
  ⟨(Exists_transport_failure (failingEnv "dial tcp: lookup packagecloud.io: no such host")
      sampleClient "u/r" "ubuntu/xenial" "a.deb" [] _ _ rfl rfl).1,
   (Exists_transport_failure (failingEnv "HTTP status: Not Found")
      sampleClient "u/r" "ubuntu/xenial" "a.deb" [] _ _ rfl rfl).1⟩

/-! ## Distributions and upload: theorems -/

/-- Searching for a key is not affected by dropping the entries of another
key. -/
theorem find_key_filter (rv : DistroMap) (k k2 : String) (h : k2 ≠ k) :
    (rv.filter (fun e => e.1 ≠ k)).find? (fun e => e.1 = k2) =
      rv.find? (fun e => e.1 = k2) := by
  induction rv with
  | nil => rfl
  | cons e rest ih =>
    by_cases he : e.1 = k
    · have he2 : ¬ (e.1 = k2) := by
        rw [he]
        exact fun x => h x.symm
      rw [List.filter_cons_of_neg (by simp [he]), List.find?_cons_of_neg _ (by simp [he2])]
      exact ih
    · rw [List.filter_cons_of_pos (by simp [he])]
      by_cases he2 : e.1 = k2
      · rw [List.find?_cons_of_pos _ (by simp [he2]), List.find?_cons_of_pos _ (by simp [he2])]
      · rw [List.find?_cons_of_neg _ (by simp [he2]), List.find?_cons_of_neg _ (by simp [he2])]
        exact ih

/-- The lookup after an assignment. -/
theorem DistroMap.get_set (rv : DistroMap) (k : String) (v : Int) (k2 : String) :
    (rv.set k v).get k2 = if k2 = k then some v else rv.get k2 := by
  unfold DistroMap.set DistroMap.get
  by_cases h : k2 = k
  · subst h
    simp [List.find?]
  · have h2 : ¬ (k = k2) := fun e => h e.symm
    rw [List.find?_cons_of_neg _ (by simp [h2]), find_key_filter rv k k2 h, if_neg h]

/-- A lookup finds nothing exactly when the key is not a key of the map. -/
theorem DistroMap.get_eq_none_iff (rv : DistroMap) (k : String) :
    rv.get k = none ↔ k ∉ rv.map Prod.fst := by
  unfold DistroMap.get
  simp only [Option.map_eq_none', List.find?_eq_none, List.mem_map, not_exists, not_and]
  constructor
  · intro h e he hk
    have := h e he
    simp [hk] at this
  · intro h e he
    have := h e he
    simpa using this

/-- A successful call of Distributions sends exactly one request, the GET of
`distributions.json`. -/
theorem Distributions_log (env : Env) (c : Client) (log log2 : List Request)
    (d : Distributions) (h : c.Distributions env log = (.ok d, log2)) :
    log2 = log ++ [authorize c
      { Method := "GET", URL := ServiceURL ++ "/" ++ "distributions.json", Body := "",
        Params := none, File := none, Username := "", Password := "",
        UserAgentHeader := [] }] := by
  unfold Client.Distributions NewRequest at h
  cases hn : env.newRequestErr "GET" (ServiceURL ++ "/" ++ "distributions.json") with
  | some err => simp [hn] at h
  | none =>
    simp only [hn] at h
    split at h
    · simp at h
    · split at h
      · simp at h
      · simp only [Prod.mk.injEq] at h
        exact h.2.symm

/-- Claim C8. With a non-empty distro string that is not a key of the mapping
built from the catalog the server returned, CreatePackage fails with
"invalid distro name: " followed by the distro, and the only request sent is
the GET of the distributions; with an empty distro string CreatePackage is the
upload without extra form fields, and it sends no request other than that
POST. -/
theorem CreatePackage_distro_resolution (env : Env) (c : Client)
    (repo pkgFile : String) (log : List Request) :
    (∀ (distro : String) (d : Distributions) (log2 : List Request),
        distro ≠ "" →
        c.Distributions env log = (.ok d, log2) →
        distro ∉ (supportedDistrosOf d).map Prod.fst →
        c.CreatePackage env repo distro pkgFile log =
            (.error ("invalid distro name: " ++ distro), log2) ∧
        log2 = log ++ [authorize c
          { Method := "GET", URL := ServiceURL ++ "/" ++ "distributions.json", Body := "",
            Params := none, File := none, Username := "", Password := "",
            UserAgentHeader := [] }]) ∧
    (c.CreatePackage env repo "" pkgFile log = c.createUpload env repo pkgFile none log ∧
      ((c.CreatePackage env repo "" pkgFile log).2 = log ∨
        (c.CreatePackage env repo "" pkgFile log).2 = log ++ [authorize c
          { Method := "POST", URL := ServiceURL ++ "/repos/" ++ repo ++ "/packages.json",
            Body := "", Params := none, File := some ("package[package_file]", pkgFile),
            Username := "", Password := "", UserAgentHeader := [] }])) := by
  constructor
  · intro distro d log2 hdistro hcat hkey
    refine ⟨?_, Distributions_log env c log log2 d hcat⟩
    have hget : (supportedDistrosOf d).get distro = none :=
      (DistroMap.get_eq_none_iff _ _).2 hkey
    simp [Client.CreatePackage, hdistro, Client.SupportedDistros, hcat, hget]
  · have h0 : c.CreatePackage env repo "" pkgFile log =
        c.createUpload env repo pkgFile none log := by
      simp [Client.CreatePackage]
    refine ⟨h0, ?_⟩
    rw [h0]
    unfold Client.createUpload uploadNewRequest
    cases hu : env.uploadErr pkgFile with
    | some err => left; rfl
    | none =>
      right
      simp only
      split <;> rfl

/-- The example of C8: on the sample server, whose catalog has `ubuntu/xenial`,
the distro `ubuntu/bionic99` is refused after the single GET of the
distributions. -/
theorem CreatePackage_distro_resolution_witness :
    sampleClient.CreatePackage sampleEnv "u/r" "ubuntu/bionic99" "a.deb" [] =
      (.error "invalid distro name: ubuntu/bionic99",
       [authorize sampleClient
          { Method := "GET", URL := "https://packagecloud.io/api/v1/distributions.json",
            Body := "", Params := none, File := none, Username := "", Password := "",
            UserAgentHeader := [] }]) :=
  ((CreatePackage_distro_resolution sampleEnv sampleClient "u/r" "a.deb" []).1
    "ubuntu/bionic99" sampleCatalog _ (by decide) rfl (by decide)).1

/-- The inner loop of SupportedDistros is the loop of assignments over the
pairs of the distribution. -/
theorem versions_foldl (dist : Distribution) (rv : DistroMap) :
    dist.Versions.foldl (fun rv v => rv.set (distroKey dist v) v.ID) rv =
      (versionEntries dist).foldl (fun rv e => rv.set e.1 e.2) rv := by
  unfold versionEntries
  rw [List.foldl_map]

/-- The two loops of SupportedDistros are one loop of assignments over a
list of lists of pairs, joined. -/
theorem foldl_join_set (ls : List (List (String × Int))) (rv : DistroMap) :
    ls.foldl (fun rv es => es.foldl (fun rv e => DistroMap.set rv e.1 e.2) rv) rv =
      ls.flatten.foldl (fun rv e => DistroMap.set rv e.1 e.2) rv := by
  induction ls generalizing rv with
  | nil => rfl
  | cons es rest ih =>
    rw [List.foldl_cons, List.flatten_cons, List.foldl_append, ih]

/-- The mapping of SupportedDistros is the loop of assignments over the pairs
of the deb family. -/
theorem supportedDistrosOf_eq_foldl (d : Distributions) :
    supportedDistrosOf d =
      (debEntries d).foldl (fun rv e => DistroMap.set rv e.1 e.2) [] := by
  unfold supportedDistrosOf debEntries
  rw [← foldl_join_set, List.foldl_map]
  congr 1
  funext rv dist
  exact versions_foldl dist rv

/-- The lookup after a loop of assignments: the last pair carrying the key
decides, and without such a pair the map before the loop does. -/
theorem get_foldl_set (es : List (String × Int)) (rv : DistroMap) (k : String) :
    (es.foldl (fun rv e => DistroMap.set rv e.1 e.2) rv).get k =
      match lastID k es with
      | some id => some id
      | none => rv.get k := by
  induction es generalizing rv with
  | nil => rfl
  | cons e rest ih =>
    rw [List.foldl_cons, ih, DistroMap.get_set]
    cases hr : lastID k rest with
    | some id => simp only [lastID, hr]
    | none =>
      by_cases h : e.1 = k
      · simp [lastID, hr, h]
      · have h2 : ¬ (k = e.1) := fun x => h x.symm
        simp [lastID, hr, h, h2]

/-- A pair found by lastID is a pair of the list. -/
theorem lastID_mem (k : String) (id : Int) (es : List (String × Int))
    (h : lastID k es = some id) : (k, id) ∈ es := by
  induction es with
  | nil => simp [lastID] at h
  | cons e rest ih =>
    cases hr : lastID k rest with
    | some id2 =>
      simp only [lastID, hr, Option.some.injEq] at h
      subst h
      exact List.mem_cons_of_mem _ (ih hr)
    | none =>
      simp only [lastID, hr] at h
      by_cases hk : e.1 = k
      · simp only [hk, if_true, Option.some.injEq] at h
        have : e = (k, id) := Prod.ext hk h
        rw [this]
        exact List.mem_cons_self _ _
      · simp [hk] at h

/-- A key carried by a pair of the list is found by lastID. -/
theorem lastID_isSome (k : String) (id : Int) (es : List (String × Int))
    (h : (k, id) ∈ es) : ∃ id2, lastID k es = some id2 := by
  induction es with
  | nil => simp at h
  | cons e rest ih =>
    cases hr : lastID k rest with
    | some id2 => exact ⟨id2, by simp only [lastID, hr]⟩
    | none =>
      rcases List.mem_cons.1 h with h1 | h1
      · refine ⟨id, ?_⟩
        rw [← h1]
        simp [lastID, hr]
      · obtain ⟨id2, h2⟩ := ih h1
        rw [hr] at h2
        simp at h2

/-- The pairs of the deb family are the pairs of the versions of its
distributions. -/
theorem mem_debEntries (d : Distributions) (e : String × Int) :
    e ∈ debEntries d ↔
      ∃ dist ∈ d.Deb, ∃ v ∈ dist.Versions, (distroKey dist v, v.ID) = e := by
  unfold debEntries versionEntries
  simp only [List.mem_flatten, List.mem_map]
  constructor
  · rintro ⟨l, ⟨dist, hd, rfl⟩, he⟩
    obtain ⟨v, hv, rfl⟩ := List.mem_map.1 he
    exact ⟨dist, hd, v, hv, rfl⟩
  · rintro ⟨dist, hd, v, hv, rfl⟩
    exact ⟨_, ⟨dist, hd, rfl⟩, List.mem_map.2 ⟨v, hv, rfl⟩⟩

/-- An assignment keeps the keys of a map distinct. -/
theorem DistroMap.set_nodup (rv : DistroMap) (k : String) (v : Int)
    (h : (rv.map Prod.fst).Nodup) : ((rv.set k v).map Prod.fst).Nodup := by
  unfold DistroMap.set
  rw [List.map_cons, List.nodup_cons]
  constructor
  · intro hk
    obtain ⟨e, he, hek⟩ := List.mem_map.1 hk
    have := (List.mem_filter.1 he).2
    simp at this
    exact this hek
  · exact List.Nodup.sublist (List.Sublist.map _ (List.filter_sublist _)) h

/-- A loop of assignments keeps the keys of a map distinct. -/
theorem foldl_set_nodup (es : List (String × Int)) (rv : DistroMap)
    (h : (rv.map Prod.fst).Nodup) :
    ((es.foldl (fun rv e => DistroMap.set rv e.1 e.2) rv).map Prod.fst).Nodup := by
  induction es generalizing rv with
  | nil => exact h
  | cons e rest ih =>
    rw [List.foldl_cons]
    exact ih _ (DistroMap.set_nodup rv e.1 e.2 h)

/-- A key that the deb family lists twice keeps the id written last: the catalog
`repeatedCatalog` holds `ubuntu`, `xenial` with the id 1 and then with the id
2, and the mapping binds the key "ubuntu/xenial" to the id 2. -/
theorem supportedDistrosOf_repeated :
    (∃ dist ∈ repeatedCatalog.Deb, ∃ v ∈ dist.Versions,
        distroKey dist v = "ubuntu/xenial" ∧ v.ID = 1) ∧
    (supportedDistrosOf repeatedCatalog).get "ubuntu/xenial" = some 2 ∧
    (supportedDistrosOf repeatedCatalog).get "ubuntu/xenial" ≠ some 1 := by
  refine ⟨⟨_, List.mem_cons_self _ _, _, List.mem_cons_self _ _, rfl, rfl⟩, rfl, ?_⟩
  intro h
  have h2 : (supportedDistrosOf repeatedCatalog).get "ubuntu/xenial" = some 2 := rfl
  rw [h2] at h
  exact absurd (Option.some.inj h) (by decide)

/-- What the loop of SupportedDistros builds: every key occurs once; for every
distribution of the deb family and every version of it the key of the pair is
a key of the mapping, bound to the id of the last pair of the deb family with
that key, which is the id of the version when all pairs of the deb family with
that key carry the same id; and every binding of the mapping is the key and id
of a version of a distribution of the catalog. -/
theorem supportedDistrosOf_deb_entries (d : Distributions) :
    ((supportedDistrosOf d).map Prod.fst).Nodup ∧
    (∀ dist ∈ d.Deb, ∀ v ∈ dist.Versions,
        distroKey dist v ∈ (supportedDistrosOf d).map Prod.fst ∧
        (supportedDistrosOf d).get (distroKey dist v) =
          lastID (distroKey dist v) (debEntries d) ∧
        ((∀ dist2 ∈ d.Deb, ∀ v2 ∈ dist2.Versions,
            distroKey dist2 v2 = distroKey dist v → v2.ID = v.ID) →
          (supportedDistrosOf d).get (distroKey dist v) = some v.ID)) ∧
    (∀ (k : String) (id : Int), (supportedDistrosOf d).get k = some id →
        ∃ dist ∈ d.Deb ++ d.Dsc ++ d.Rpm, ∃ v ∈ dist.Versions,
          distroKey dist v = k ∧ v.ID = id) := by
  have hget : ∀ k : String, (supportedDistrosOf d).get k = lastID k (debEntries d) := by
    intro k
    rw [supportedDistrosOf_eq_foldl, get_foldl_set]
    cases lastID k (debEntries d) with
    | some id => rfl
    | none => rfl
  refine ⟨?_, ?_, ?_⟩
  · rw [supportedDistrosOf_eq_foldl]
    exact foldl_set_nodup _ [] List.nodup_nil
  · intro dist hd v hv
    have hmem : (distroKey dist v, v.ID) ∈ debEntries d :=
      (mem_debEntries d _).2 ⟨dist, hd, v, hv, rfl⟩
    obtain ⟨id2, hid2⟩ := lastID_isSome _ _ _ hmem
    refine ⟨?_, hget _, ?_⟩
    · by_contra hk
      have hnone := (DistroMap.get_eq_none_iff _ _).2 hk
      rw [hget, hid2] at hnone
      simp at hnone
    · intro hsame
      rw [hget, hid2]
      obtain ⟨dist2, hd2, v2, hv2, he⟩ := (mem_debEntries d _).1 (lastID_mem _ _ _ hid2)
      have hk : distroKey dist2 v2 = distroKey dist v := congrArg Prod.fst he
      have hi : v2.ID = id2 := congrArg Prod.snd he
      rw [← hi, hsame dist2 hd2 v2 hv2 hk]
  · intro k id hk
    rw [hget] at hk
    obtain ⟨dist, hd, v, hv, he⟩ := (mem_debEntries d _).1 (lastID_mem _ _ _ hk)
    refine ⟨dist, ?_, v, hv, congrArg Prod.fst he, congrArg Prod.snd he⟩
    simp [hd]

/-- The deb version `ubuntu/xenial` of the sample catalog is a key of the
mapping, bound to its id 165. -/
theorem supportedDistrosOf_deb_entries_sample :
    "ubuntu/xenial" ∈ (supportedDistrosOf sampleCatalog).map Prod.fst ∧
    (supportedDistrosOf sampleCatalog).get "ubuntu/xenial" = some 165 :=
  ⟨((supportedDistrosOf_deb_entries sampleCatalog).2.1 _ (List.mem_cons_self _ _)
      { ID := 165, DisplayName := "16.04 Xenial", IndexName := "xenial" }
      (List.mem_cons_self _ _)).1,
   ((supportedDistrosOf_deb_entries sampleCatalog).2.1 _ (List.mem_cons_self _ _)
      { ID := 165, DisplayName := "16.04 Xenial", IndexName := "xenial" }
      (List.mem_cons_self _ _)).2.2 (by
        intro dist2 hd2 v2 hv2 _
        simp only [sampleCatalog, List.mem_singleton] at hd2
        subst hd2
        simp only [List.mem_singleton] at hv2
        subst hv2
        rfl)⟩

/-- Claim C9 at the sample catalog, whose rpm family holds the version `7` of
`el` with the id 140: the loop of SupportedDistros ranges over the deb family
only, so the mapping has the single key "ubuntu/xenial" and no binding for
"el/7", and CreatePackage refuses the distro "el/7" of the catalog. -/
theorem supportedDistrosOf_sampleCatalog :
    (∃ dist ∈ sampleCatalog.Rpm, ∃ v ∈ dist.Versions,
        distroKey dist v = "el/7" ∧ v.ID = 140) ∧
    supportedDistrosOf sampleCatalog = [("ubuntu/xenial", 165)] ∧
    (supportedDistrosOf sampleCatalog).get "el/7" = none ∧
    "el/7" ∉ (supportedDistrosOf sampleCatalog).map Prod.fst ∧
    (sampleClient.CreatePackage sampleEnv "u/r" "el/7" "a.rpm" []).1 =
      .error "invalid distro name: el/7" :=
  ⟨⟨_, List.mem_cons_self _ _, _, List.mem_cons_self _ _, rfl, rfl⟩, rfl, rfl,
    by decide, rfl⟩

/-! ## Pagination: theorems -/

/-- The loop over the links, from any value of `rv.Next`: the last link with
the relation "next" decides, and without such a link the value is kept. -/
theorem foldl_linkStep (c : Client) (links : List Link) (next : Option NextFn) :
    links.foldl (linkStep c) next =
      match lastNext links with
      | some l => some (NextFn.linked c l)
      | none => next := by
  induction links generalizing next with
  | nil => rfl
  | cons l rest ih =>
    rw [List.foldl_cons, ih]
    cases hr : lastNext rest with
    | some l2 => simp only [lastNext, hr]
    | none =>
      by_cases h : l.Rel = "next"
      · simp [lastNext, hr, linkStep, h]
      · simp [lastNext, hr, linkStep, h]

/-- The function the loop leaves in `rv.Next` is the one that captures the
last link with the relation "next". -/
theorem rangeLinks_eq (c : Client) (links : List Link) :
    rangeLinks c links = (lastNext links).map (NextFn.linked c) := by
  unfold rangeLinks
  rw [foldl_linkStep]
  cases lastNext links <;> rfl

/-- The link found by lastNext is a link of the header with the relation
"next". -/
theorem lastNext_mem (links : List Link) (l : Link) (h : lastNext links = some l) :
    l ∈ links ∧ l.Rel = "next" := by
  induction links with
  | nil => simp [lastNext] at h
  | cons l0 rest ih =>
    cases hr : lastNext rest with
    | some l2 =>
      simp only [lastNext, hr, Option.some.injEq] at h
      subst h
      exact ⟨List.mem_cons_of_mem _ (ih hr).1, (ih hr).2⟩
    | none =>
      simp only [lastNext, hr] at h
      by_cases hk : l0.Rel = "next"
      · simp only [hk, if_true, Option.some.injEq] at h
        subst h
        exact ⟨List.mem_cons_self _ _, hk⟩
      · simp [hk] at h

/-- A header with a link of the relation "next" has a last such link. -/
theorem lastNext_isSome (links : List Link) (h : ∃ l ∈ links, l.Rel = "next") :
    ∃ l, lastNext links = some l := by
  induction links with
  | nil =>
    obtain ⟨l, hl, _⟩ := h
    simp at hl
  | cons l0 rest ih =>
    cases hr : lastNext rest with
    | some l2 => exact ⟨l2, by simp only [lastNext, hr]⟩
    | none =>
      obtain ⟨l, hl, hrel⟩ := h
      rcases List.mem_cons.1 hl with h1 | h1
      · subst h1
        exact ⟨l, by simp [lastNext, hr, hrel]⟩
      · obtain ⟨l2, h2⟩ := ih ⟨l, h1, hrel⟩
        rw [hr] at h2
        simp at h2

/-- Claim C3. For every successful page fetch by GetPaginatedPackages, `Next`
is non-nil exactly when the `Link` header of the response has a link with the
relation "next"; when it is non-nil it is the function of the same client that
captures a link of the header with the relation "next" (the last one), and
calling it is calling GetPaginatedPackages on that client with the URL of that
link; so when the links with the relation "next" name one URL, that URL is
fetched, whatever the other links of the header are. -/
theorem GetPaginatedPackages_next (env : Env) (c : Client) (endpoint : String)
    (log log2 : List Request) (req : Request) (resp : Response)
    (page : PaginatedPackages)
    (hreq : NewRequest env "GET" endpoint "" = .ok req)
    (hresp : env.Do log (authorize c req) = .ok resp)
    (hpage : c.GetPaginatedPackages env endpoint log = (.ok page, log2)) :
    (page.Next.isSome = true ↔ ∃ l ∈ resp.Links, l.Rel = "next") ∧
    (∀ f : NextFn, page.Next = some f →
      ∃ l ∈ resp.Links, l.Rel = "next" ∧ lastNext resp.Links = some l ∧
        f = NextFn.linked c l ∧
        ∀ lg : List Request, f.call env lg = c.GetPaginatedPackages env l.URL lg) ∧
    (∀ (f : NextFn) (url : String), page.Next = some f →
      (∀ l ∈ resp.Links, l.Rel = "next" → l.URL = url) →
      ∀ lg : List Request, f.call env lg = c.GetPaginatedPackages env url lg) := by
  have hnext : page.Next = (lastNext resp.Links).map (NextFn.linked c) := by
    unfold Client.GetPaginatedPackages at hpage
    simp only [hreq, clientDo, hresp] at hpage
    split at hpage
    · simp at hpage
    · split at hpage
      · simp at hpage
      · simp only [Prod.mk.injEq, Except.ok.injEq] at hpage
        rw [← hpage.1]
        exact rangeLinks_eq c resp.Links
  have hsome : ∀ f : NextFn, page.Next = some f →
      ∃ l ∈ resp.Links, l.Rel = "next" ∧ lastNext resp.Links = some l ∧
        f = NextFn.linked c l := by
    intro f hf
    rw [hnext] at hf
    cases hl : lastNext resp.Links with
    | none => simp [hl] at hf
    | some l =>
      simp only [hl, Option.map_some', Option.some.injEq] at hf
      exact ⟨l, (lastNext_mem _ _ hl).1, (lastNext_mem _ _ hl).2, rfl, hf.symm⟩
  refine ⟨?_, ?_, ?_⟩
  · constructor
    · intro h
      cases hn : page.Next with
      | none => simp [hn] at h
      | some f =>
        obtain ⟨l, hl, hrel, _, _⟩ := hsome f hn
        exact ⟨l, hl, hrel⟩
    · intro h
      obtain ⟨l, hl⟩ := lastNext_isSome _ h
      rw [hnext, hl]
      rfl
  · intro f hf
    obtain ⟨l, hl, hrel, hlast, hfl⟩ := hsome f hf
    refine ⟨l, hl, hrel, hlast, hfl, ?_⟩
    intro lg
    rw [hfl]
    rfl
  · intro f url hf hall lg
    obtain ⟨l, hl, hrel, _, hfl⟩ := hsome f hf
    rw [hfl, ← hall l hl hrel]
    rfl

/-- The claim C3 at the first page of the sample server, whose `Link` header
names the second page with the relation "next" and, after it, the third page
with the relation "last": the function stored in `Next` fetches the second
page. -/
theorem GetPaginatedPackages_next_witness :
    ∃ f : NextFn,
      (sampleClient.GetPaginatedPackages sampleEnv page1URL []).1.map
        (fun page => page.Next) = .ok (some f) ∧
      (f.call sampleEnv [getRequest sampleClient page1URL]).2 =
        [getRequest sampleClient page1URL, getRequest sampleClient page2URL] ∧
      ∀ lg : List Request,
        f.call sampleEnv lg = sampleClient.GetPaginatedPackages sampleEnv page2URL lg :=
  ⟨NextFn.linked sampleClient ⟨page2URL, "next"⟩, rfl, rfl,
    (GetPaginatedPackages_next sampleEnv sampleClient page1URL [] _ _
      (pageResponse "a" [⟨page2URL, "next"⟩, ⟨page3URL, "last"⟩]) _ rfl rfl rfl).2.2
      (NextFn.linked sampleClient ⟨page2URL, "next"⟩) page2URL rfl (by decide)⟩

/-- A fetch of a page that is answered, decoded and carries the pagination
headers returns the page with the function decided by the loop over its
links. -/
theorem GetPaginatedPackages_ok (env : Env) (c : Client) (url : String)
    (log : List Request) (resp : Response) (packages : List Package)
    (paginated : Paginated)
    (hreq : env.newRequestErr "GET" url = none)
    (hresp : env.Do log (getRequest c url) = .ok resp)
    (hdecode : decodeResponse env env.decodePackages resp = .ok packages)
    (hheaders : ExtractPaginationHeaders env resp = .ok paginated) :
    c.GetPaginatedPackages env url log =
      (.ok { Packages := packages,
             Next := (lastNext resp.Links).map (NextFn.linked c),
             Paginated := paginated },
       log ++ [getRequest c url]) := by
  unfold getRequest at hresp
  simp [Client.GetPaginatedPackages, NewRequest, hreq, clientDo, hresp, hdecode, hheaders,
    getRequest, rangeLinks_eq]

/-- The iteration of the `all` command over a chain of pages: started on the
first page of the chain with enough fuel, it fetches every page of the chain
once, in order, and returns the packages accumulated before followed by those
of the pages. -/
theorem allLoop_chain (env : Env) (c : Client) (log : List Request)
    (pages : List (String × List Package)) (h : ServesChain env c log pages) :
    ∀ (fuel : Nat) (f : NextFn) (acc : List Package),
      pages.length ≤ fuel →
      (∀ lg, f.call env lg = c.GetPaginatedPackages env (pages.head?.map Prod.fst).get! lg) →
      allLoop env fuel (some f) acc log =
        some (.ok (acc ++ (pages.map Prod.snd).flatten),
          log ++ pages.map (fun p => getRequest c p.1)) := by
  induction h with
  | last log url resp packages paginated hreq hresp hdecode hheaders hlinks =>
    intro fuel f acc hfuel hf
    obtain ⟨n, rfl⟩ : ∃ n, fuel = n + 1 := ⟨fuel - 1, by simp at hfuel; omega⟩
    have hno : lastNext resp.Links = none := by
      cases hl : lastNext resp.Links with
      | none => rfl
      | some l => exact absurd (lastNext_mem _ _ hl).2 (hlinks l (lastNext_mem _ _ hl).1)
    have hcall := hf log
    simp only [List.head?_cons, Option.map_some', Option.get!_some] at hcall
    rw [GetPaginatedPackages_ok env c url log resp packages paginated hreq hresp hdecode
      hheaders, hno] at hcall
    simp [allLoop, hcall]
  | step log url resp packages paginated nextURL nextPackages rest hreq hresp hdecode
      hheaders hnext hlinks hrest ih =>
    intro fuel f acc hfuel hf
    obtain ⟨n, rfl⟩ : ∃ n, fuel = n + 1 := ⟨fuel - 1, by simp at hfuel; omega⟩
    obtain ⟨l, hl⟩ := lastNext_isSome _ hnext
    have hurl : l.URL = nextURL := hlinks l (lastNext_mem _ _ hl).1 (lastNext_mem _ _ hl).2
    have hcall := hf log
    simp only [List.head?_cons, Option.map_some', Option.get!_some] at hcall
    rw [GetPaginatedPackages_ok env c url log resp packages paginated hreq hresp hdecode
      hheaders, hl] at hcall
    have hn : ((nextURL, nextPackages) :: rest).length ≤ n := by
      simp at hfuel ⊢
      omega
    have := ih n (NextFn.linked c l) (acc ++ packages) hn
      (by
        intro lg
        simp only [List.head?_cons, Option.map_some', Option.get!_some, ← hurl]
        rfl)
    simp only [allLoop, hcall, Option.map_some']
    rw [this]
    simp [List.append_assoc]

/-- Claim C4. For every repo whose pages form a chain of N pages, in which the
`Link` header of each of the first N-1 pages has a "next" relation that names
the following page and the last page has none, the iteration of the `all`
command (PaginatedAll, then Next until it is nil), given fuel for N
iterations, performs one fetch per page, in chain order, returns the
concatenation of the N package lists in that order, and stops. -/
theorem allPackages_chain (env : Env) (c : Client) (repo : String)
    (packages : List Package) (rest : List (String × List Package)) (fuel : Nat)
    (h : ServesChain env c []
      ((ServiceURL ++ "/repos/" ++ repo ++ "/packages.json", packages) :: rest))
    (hfuel : rest.length + 1 ≤ fuel) :
    allPackages env fuel c repo =
      some (.ok (packages ++ (rest.map Prod.snd).flatten),
        getRequest c (ServiceURL ++ "/repos/" ++ repo ++ "/packages.json") ::
          rest.map (fun p => getRequest c p.1)) := by
  unfold allPackages
  rw [allLoop_chain env c [] _ h fuel (NextFn.first c repo) [] (by simpa using hfuel)
    (by intro lg; rfl)]
  simp

/-- The claim C4 on the sample server, whose three pages form a chain (the
first names the second as "next" before naming the third as "last"): the
iteration fetches the three pages in order and returns their packages. -/
theorem allPackages_chain_witness :
    allPackages sampleEnv 10 sampleClient "u/r" =
      some (.ok [samplePackage "a", samplePackage "b", samplePackage "c"],
        [getRequest sampleClient page1URL, getRequest sampleClient page2URL,
         getRequest sampleClient page3URL]) :=
  allPackages_chain sampleEnv sampleClient "u/r" [samplePackage "a"]
    [(page2URL, [samplePackage "b"]), (page3URL, [samplePackage "c"])] 10
    (ServesChain.step [] page1URL
      (pageResponse "a" [⟨page2URL, "next"⟩, ⟨page3URL, "last"⟩])
      [samplePackage "a"] { Total := 3, PerPage := 1, MaxPerPage := 1 }
      page2URL [samplePackage "b"] [(page3URL, [samplePackage "c"])] rfl rfl rfl rfl
      ⟨_, List.mem_cons_self _ _, rfl⟩ (by decide)
      (ServesChain.step _ page2URL
        (pageResponse "b" [⟨page1URL, "first"⟩, ⟨page1URL, "prev"⟩, ⟨page3URL, "next"⟩,
          ⟨page3URL, "last"⟩])
        [samplePackage "b"] { Total := 3, PerPage := 1, MaxPerPage := 1 }
        page3URL [samplePackage "c"] [] rfl rfl rfl rfl
        ⟨⟨page3URL, "next"⟩, by decide, rfl⟩ (by decide)
        (ServesChain.last _ page3URL
          (pageResponse "c" [⟨page1URL, "first"⟩, ⟨page2URL, "prev"⟩])
          [samplePackage "c"] { Total := 3, PerPage := 1, MaxPerPage := 1 }
          rfl rfl rfl rfl (by decide))))
    (by decide)

/-! ## Commands: theorems -/

/-- Exists sends at most one request, the HEAD request of the file, and it has
sent it whenever it returns an answer. -/
theorem Exists_log (env : Env) (c : Client) (repo distro packageFilename : String)
    (log : List Request) :
    ((c.Exists env repo distro packageFilename log).2 = log ∨
      (c.Exists env repo distro packageFilename log).2 =
        log ++ [headRequest c repo distro packageFilename]) ∧
    (∀ b : Bool, (c.Exists env repo distro packageFilename log).1 = .ok b →
      (c.Exists env repo distro packageFilename log).2 =
        log ++ [headRequest c repo distro packageFilename]) := by
  unfold Client.Exists NewRequest headRequest clientDo
  cases hn : env.newRequestErr "HEAD"
      (ServiceBaseURL ++ "/" ++ repo ++ "/packages/" ++ distro ++ "/" ++ packageFilename) with
  | some err => simp [hn]
  | none =>
    simp only [hn]
    split
    · split <;> simp
    · split <;> simp

/-- One iteration of the dry run of push that goes on: the run from a path that
passes is the run from the next path, after the HEAD request of the path. -/
theorem pushLoop_dry_pass_step (env : Env) (fs : Files) (force : Bool) (client : Client)
    (repo distro path : String) (rest : List String) (changes : List Change)
    (log : List Request) (hp : pushPass env fs force client repo distro path log) :
    pushLoop env fs true force client repo distro (path :: rest) changes log =
      pushLoop env fs true force client repo distro rest changes
        (log ++ [headRequest client repo distro (fs.Base path)]) := by
  have hlog := (Exists_log env client repo distro (fs.Base path) log).2
  unfold pushPass upstreamExists at hp
  cases hE : client.Exists env repo distro (fs.Base path) log with
  | mk res lg =>
    rw [hE] at hp hlog
    simp only at hp hlog
    rcases hp with h | ⟨h, hf⟩
    · have hl := hlog false h
      subst h
      subst hl
      simp [pushLoop, upstreamExists, hE]
    · have hl := hlog true h
      subst h
      subst hl
      simp [pushLoop, upstreamExists, hE, hf]

/-- One iteration of the dry run of push that ends the run: at a path that
does not pass, the run ends with an error, without a change, and its requests
are those left by the existence check of that path. -/
theorem pushLoop_dry_stop_step (env : Env) (fs : Files) (force : Bool) (client : Client)
    (repo distro path : String) (rest : List String) (changes : List Change)
    (log : List Request) (hp : ¬ pushPass env fs force client repo distro path log) :
    (pushLoop env fs true force client repo distro (path :: rest) changes log).changes =
        changes ∧
    (∃ msg, (pushLoop env fs true force client repo distro (path :: rest) changes log).outcome =
        .error msg) ∧
    (pushLoop env fs true force client repo distro (path :: rest) changes log).log =
      (upstreamExists env client repo distro (fs.Base path) log).2 := by
  unfold pushPass at hp
  cases hE : upstreamExists env client repo distro (fs.Base path) log with
  | mk res lg =>
    rw [hE] at hp
    simp only at hp
    cases res with
    | error err => simp [pushLoop, hE]
    | ok found =>
      cases found with
      | false => simp at hp
      | true =>
        cases force with
        | true => simp at hp
        | false => simp [pushLoop, hE]

/-- The dry run of push over paths that all pass ends normally, without a
change, after the HEAD requests of all the paths, in order. -/
theorem pushLoop_dry_pass (env : Env) (fs : Files) (force : Bool) (client : Client)
    (repo distro : String) (files : List String) :
    ∀ (changes : List Change) (log : List Request),
      pushPassAll env fs force client repo distro files log →
      pushLoop env fs true force client repo distro files changes log =
        { outcome := .ok (), changes := changes,
          log := log ++ files.map (fun path => headRequest client repo distro (fs.Base path)) } := by
  induction files with
  | nil =>
    intro changes log _
    simp [pushLoop]
  | cons path rest ih =>
    intro changes log hp
    obtain ⟨h1, h2⟩ := hp
    rw [pushLoop_dry_pass_step env fs force client repo distro path rest changes log h1,
      ih changes _ h2]
    simp

/-- The dry run of push over paths of which the first that does not pass comes
after paths that pass: the run ends with an error at that path, without a
change, and its requests are the HEAD requests of the paths before it followed
by what the existence check of that path sends. -/
theorem pushLoop_dry_stop (env : Env) (fs : Files) (force : Bool) (client : Client)
    (repo distro : String) (pre : List String) (path : String) (post : List String) :
    ∀ (changes : List Change) (log : List Request),
      pushPassAll env fs force client repo distro pre log →
      ¬ pushPass env fs force client repo distro path
        (log ++ pre.map (fun p => headRequest client repo distro (fs.Base p))) →
      (pushLoop env fs true force client repo distro (pre ++ path :: post) changes log).changes =
          changes ∧
      (∃ msg,
        (pushLoop env fs true force client repo distro (pre ++ path :: post) changes log).outcome =
          .error msg) ∧
      (pushLoop env fs true force client repo distro (pre ++ path :: post) changes log).log =
        (upstreamExists env client repo distro (fs.Base path)
          (log ++ pre.map (fun p => headRequest client repo distro (fs.Base p)))).2 := by
  induction pre with
  | nil =>
    intro changes log _ hstop
    simp only [List.map_nil, List.append_nil] at hstop
    simpa using pushLoop_dry_stop_step env fs force client repo distro path post changes log hstop
  | cons p rest ih =>
    intro changes log hp hstop
    obtain ⟨h1, h2⟩ := hp
    simp only [List.map_cons] at hstop
    have hstop2 : ¬ pushPass env fs force client repo distro path
        ((log ++ [headRequest client repo distro (fs.Base p)]) ++
          rest.map (fun p => headRequest client repo distro (fs.Base p))) := by
      simpa [List.append_assoc] using hstop
    have := ih changes _ h2 hstop2
    rw [List.cons_append,
      pushLoop_dry_pass_step env fs force client repo distro p _ changes log h1]
    simpa [List.append_assoc] using this

/-- The dry run of push records no change and only adds HEAD requests. -/
theorem pushLoop_dry_safe (env : Env) (fs : Files) (force : Bool) (client : Client)
    (repo distro : String) (files : List String) :
    ∀ (changes : List Change) (log : List Request),
      (pushLoop env fs true force client repo distro files changes log).changes = changes ∧
      ∃ extra,
        (pushLoop env fs true force client repo distro files changes log).log = log ++ extra ∧
        ∀ q ∈ extra, q.Method = "HEAD" := by
  induction files with
  | nil =>
    intro changes log
    exact ⟨rfl, [], by simp [pushLoop], by simp⟩
  | cons path rest ih =>
    intro changes log
    by_cases hp : pushPass env fs force client repo distro path log
    · rw [pushLoop_dry_pass_step env fs force client repo distro path rest changes log hp]
      obtain ⟨hc, extra, hl, hm⟩ := ih changes
        (log ++ [headRequest client repo distro (fs.Base path)])
      refine ⟨hc, headRequest client repo distro (fs.Base path) :: extra, ?_, ?_⟩
      · rw [hl]
        simp
      · intro q hq
        rcases List.mem_cons.1 hq with h | h
        · rw [h]
          rfl
        · exact hm q h
    · obtain ⟨hc, _, hl⟩ :=
        pushLoop_dry_stop_step env fs force client repo distro path rest changes log hp
      refine ⟨hc, ?_⟩
      rw [hl]
      rcases (Exists_log env client repo distro (fs.Base path) log).1 with h | h
      · exact ⟨[], by simpa [upstreamExists] using h, by simp⟩
      · exact ⟨[headRequest client repo distro (fs.Base path)],
          by simpa [upstreamExists] using h, by simp [headRequest, authorize]⟩

/-- One iteration of the dry run of destroy that goes on: the run from a file
name whose check is answered is the run from the next file name, after the
HEAD request of the file name. -/
theorem destroyLoop_dry_pass_step (env : Env) (client : Client)
    (repo distro filename : String) (rest : List String) (changes : List Change)
    (log : List Request) (hp : destroyPass env client repo distro filename log) :
    destroyLoop env true client repo distro (filename :: rest) changes log =
      destroyLoop env true client repo distro rest changes
        (log ++ [headRequest client repo distro filename]) := by
  have hlog := (Exists_log env client repo distro filename log).2
  obtain ⟨found, hf⟩ := hp
  cases hE : client.Exists env repo distro filename log with
  | mk res lg =>
    rw [hE] at hf hlog
    simp only at hf hlog
    have hl := hlog found hf
    subst hf
    subst hl
    cases found <;> simp [destroyLoop, hE]

/-- One iteration of the dry run of destroy that ends the run: at a file name
whose check fails, the run ends with an error, without a change, and its
requests are those left by that check. -/
theorem destroyLoop_dry_stop_step (env : Env) (client : Client)
    (repo distro filename : String) (rest : List String) (changes : List Change)
    (log : List Request) (hp : ¬ destroyPass env client repo distro filename log) :
    (destroyLoop env true client repo distro (filename :: rest) changes log).changes =
        changes ∧
    (∃ msg, (destroyLoop env true client repo distro (filename :: rest) changes log).outcome =
        .error msg) ∧
    (destroyLoop env true client repo distro (filename :: rest) changes log).log =
      (client.Exists env repo distro filename log).2 := by
  unfold destroyPass at hp
  cases hE : client.Exists env repo distro filename log with
  | mk res lg =>
    rw [hE] at hp
    simp only at hp
    cases res with
    | error err => simp [destroyLoop, hE]
    | ok found => exact absurd ⟨found, rfl⟩ hp

/-- The dry run of destroy over file names whose checks are all answered ends
normally, without a change, after the HEAD requests of all the file names, in
order. -/
theorem destroyLoop_dry_pass (env : Env) (client : Client)
    (repo distro : String) (files : List String) :
    ∀ (changes : List Change) (log : List Request),
      destroyPassAll env client repo distro files log →
      destroyLoop env true client repo distro files changes log =
        { outcome := .ok (), changes := changes,
          log := log ++ files.map (fun filename => headRequest client repo distro filename) } := by
  induction files with
  | nil =>
    intro changes log _
    simp [destroyLoop]
  | cons filename rest ih =>
    intro changes log hp
    obtain ⟨h1, h2⟩ := hp
    rw [destroyLoop_dry_pass_step env client repo distro filename rest changes log h1,
      ih changes _ h2]
    simp

/-- The dry run of destroy over file names of which the first whose check
fails comes after file names whose checks are answered: the run ends with an
error at that file name, without a change, and its requests are the HEAD
requests of the file names before it followed by what that check sends. -/
theorem destroyLoop_dry_stop (env : Env) (client : Client)
    (repo distro : String) (pre : List String) (filename : String) (post : List String) :
    ∀ (changes : List Change) (log : List Request),
      destroyPassAll env client repo distro pre log →
      ¬ destroyPass env client repo distro filename
        (log ++ pre.map (fun p => headRequest client repo distro p)) →
      (destroyLoop env true client repo distro (pre ++ filename :: post) changes log).changes =
          changes ∧
      (∃ msg,
        (destroyLoop env true client repo distro (pre ++ filename :: post) changes log).outcome =
          .error msg) ∧
      (destroyLoop env true client repo distro (pre ++ filename :: post) changes log).log =
        (client.Exists env repo distro filename
          (log ++ pre.map (fun p => headRequest client repo distro p))).2 := by
  induction pre with
  | nil =>
    intro changes log _ hstop
    simp only [List.map_nil, List.append_nil] at hstop
    simpa using destroyLoop_dry_stop_step env client repo distro filename post changes log hstop
  | cons p rest ih =>
    intro changes log hp hstop
    obtain ⟨h1, h2⟩ := hp
    simp only [List.map_cons] at hstop
    have hstop2 : ¬ destroyPass env client repo distro filename
        ((log ++ [headRequest client repo distro p]) ++
          rest.map (fun p => headRequest client repo distro p)) := by
      simpa [List.append_assoc] using hstop
    have := ih changes _ h2 hstop2
    rw [List.cons_append,
      destroyLoop_dry_pass_step env client repo distro p _ changes log h1]
    simpa [List.append_assoc] using this

/-- The dry run of destroy records no change and only adds HEAD requests. -/
theorem destroyLoop_dry_safe (env : Env) (client : Client)
    (repo distro : String) (files : List String) :
    ∀ (changes : List Change) (log : List Request),
      (destroyLoop env true client repo distro files changes log).changes = changes ∧
      ∃ extra,
        (destroyLoop env true client repo distro files changes log).log = log ++ extra ∧
        ∀ q ∈ extra, q.Method = "HEAD" := by
  induction files with
  | nil =>
    intro changes log
    exact ⟨rfl, [], by simp [destroyLoop], by simp⟩
  | cons filename rest ih =>
    intro changes log
    by_cases hp : destroyPass env client repo distro filename log
    · rw [destroyLoop_dry_pass_step env client repo distro filename rest changes log hp]
      obtain ⟨hc, extra, hl, hm⟩ := ih changes
        (log ++ [headRequest client repo distro filename])
      refine ⟨hc, headRequest client repo distro filename :: extra, ?_, ?_⟩
      · rw [hl]
        simp
      · intro q hq
        rcases List.mem_cons.1 hq with h | h
        · rw [h]
          rfl
        · exact hm q h
    · obtain ⟨hc, _, hl⟩ :=
        destroyLoop_dry_stop_step env client repo distro filename rest changes log hp
      refine ⟨hc, ?_⟩
      rw [hl]
      rcases (Exists_log env client repo distro filename log).1 with h | h
      · exact ⟨[], by simpa using h, by simp⟩
      · exact ⟨[headRequest client repo distro filename],
          by simpa using h, by simp [headRequest, authorize]⟩

/-- A page fetch sends at most one request, a GET. -/
theorem GetPaginatedPackages_log (env : Env) (c : Client) (endpoint : String)
    (log : List Request) :
    ∃ extra, (c.GetPaginatedPackages env endpoint log).2 = log ++ extra ∧
      ∀ q ∈ extra, q.Method = "GET" := by
  unfold Client.GetPaginatedPackages NewRequest clientDo
  cases hn : env.newRequestErr "GET" endpoint with
  | some err => exact ⟨[], by simp [hn], by simp⟩
  | none =>
    refine ⟨[getRequest c endpoint], ?_, by simp [getRequest, authorize]⟩
    simp only [hn, getRequest]
    split
    · rfl
    · split
      · rfl
      · split <;> rfl

/-- The listing loop of the all command only adds GET requests to those sent
before. -/
theorem allLoop_log (env : Env) :
    ∀ (fuel : Nat) (next : Option NextFn) (acc : List Package) (log : List Request)
      (res : Except Error (List Package)) (log2 : List Request),
      allLoop env fuel next acc log = some (res, log2) →
      ∃ extra, log2 = log ++ extra ∧ ∀ q ∈ extra, q.Method = "GET" := by
  intro fuel
  induction fuel with
  | zero =>
    intro next acc log res log2 h
    cases next with
    | none =>
      simp only [allLoop, Option.some.injEq, Prod.mk.injEq] at h
      exact ⟨[], by simp [h.2], by simp⟩
    | some f => simp [allLoop] at h
  | succ n ih =>
    intro next acc log res log2 h
    cases next with
    | none =>
      simp only [allLoop, Option.some.injEq, Prod.mk.injEq] at h
      exact ⟨[], by simp [h.2], by simp⟩
    | some f =>
      have hcall : ∃ extra, (f.call env log).2 = log ++ extra ∧
          ∀ q ∈ extra, q.Method = "GET" := by
        cases f with
        | first client repo => exact GetPaginatedPackages_log env client _ log
        | linked c link => exact GetPaginatedPackages_log env c _ log
      obtain ⟨e1, he1, hg1⟩ := hcall
      cases hc : f.call env log with
      | mk r lg =>
        rw [hc] at he1
        simp only at he1
        cases r with
        | error err =>
          simp only [allLoop, hc, Option.some.injEq, Prod.mk.injEq] at h
          exact ⟨e1, by rw [← h.2, he1], hg1⟩
        | ok page =>
          simp only [allLoop, hc] at h
          obtain ⟨e2, he2, hg2⟩ := ih _ _ _ _ _ h
          refine ⟨e1 ++ e2, by rw [he2, he1, List.append_assoc], ?_⟩
          intro q hq
          rcases List.mem_append.1 hq with h1 | h1
          · exact hg1 q h1
          · exact hg2 q h1

/-- Claim C11, as stated, fails in its second half: the dry run of push without
the force flag on the files `dist/a.deb`, which exists on the sample server,
and `b.deb` ends at the first file, so Exists is called for `a.deb` and not
for `b.deb`; and the dry run on a target that ends with a slash, as the usage
text writes it, ends before any call of Exists. -/
theorem dryRun_push_stops_counterexample :
    (pushCmd sampleEnv (sampleHost "t" none) sampleFiles true false "u/r/ubuntu/xenial"
        ["dist/a.deb", "b.deb"]).outcome =
      .error ("Dry Run package a.deb already exists in repo u/r/ubuntu/xenial, " ++
        "use -f to force overwrite") ∧
    (pushCmd sampleEnv (sampleHost "t" none) sampleFiles true false "u/r/ubuntu/xenial"
        ["dist/a.deb", "b.deb"]).log =
      [headRequest { URL := ServiceBaseURL, Token := "t" } "u/r" "ubuntu/xenial" "a.deb"] ∧
    headRequest { URL := ServiceBaseURL, Token := "t" } "u/r" "ubuntu/xenial" "b.deb" ∉
      (pushCmd sampleEnv (sampleHost "t" none) sampleFiles true false "u/r/ubuntu/xenial"
        ["dist/a.deb", "b.deb"]).log ∧
    (pushCmd sampleEnv (sampleHost "t" none) sampleFiles true false "u/r/ubuntu/xenial/"
        ["dist/a.deb", "b.deb"]).outcome =
      .error "u/r/ubuntu/xenial/ is not of form user/repo/distro/version/" ∧
    (pushCmd sampleEnv (sampleHost "t" none) sampleFiles true false "u/r/ubuntu/xenial/"
        ["dist/a.deb", "b.deb"]).log = [] := by
  refine ⟨rfl, rfl, ?_, rfl, rfl⟩
  have hl : (pushCmd sampleEnv (sampleHost "t" none) sampleFiles true false "u/r/ubuntu/xenial"
      ["dist/a.deb", "b.deb"]).log =
      [headRequest { URL := ServiceBaseURL, Token := "t" } "u/r" "ubuntu/xenial" "a.deb"] := rfl
  rw [hl]
  decide

/-- Claim C11, amended. With the dry-run flag set, for every server, host,
argument list and force setting, the push, destroy and all commands call no
state-changing client operation and send only HEAD requests (push, destroy) or
GET requests (all).  The read-only calls are made up to the point where the
command ends: when every existence check lets the command go on (for destroy:
it is answered; for push: it is answered, and the file is not there or the
force flag is set), the command ends normally after the HEAD requests of all
the files, in order; otherwise it ends with an error at the first file whose
check does not, after the HEAD requests of the files before it and what the
check of that file sends.  The all command performs the paginated listing. -/
theorem dryRun_suppresses_changes (env : Env) (h : Host) :
    (∀ (fs : Files) (force : Bool) (target : String) (files : List String),
      (pushCmd env h fs true force target files).changes = [] ∧
      (∀ q ∈ (pushCmd env h fs true force target files).log, q.Method = "HEAD") ∧
      (∀ (client : Client) (p0 p1 p2 p3 : String),
        Split target '/' = [p0, p1, p2, p3] → upstreamNewClient h "" = .ok client →
        files.find? fs.IsNotExist = none →
        (pushPassAll env fs force client (p0 ++ "/" ++ p1) (p2 ++ "/" ++ p3) files [] →
          (pushCmd env h fs true force target files).outcome = .ok () ∧
          (pushCmd env h fs true force target files).log =
            files.map (fun path =>
              headRequest client (p0 ++ "/" ++ p1) (p2 ++ "/" ++ p3) (fs.Base path))) ∧
        (∀ (pre : List String) (path : String) (post : List String),
          files = pre ++ path :: post →
          pushPassAll env fs force client (p0 ++ "/" ++ p1) (p2 ++ "/" ++ p3) pre [] →
          ¬ pushPass env fs force client (p0 ++ "/" ++ p1) (p2 ++ "/" ++ p3) path
            (pre.map (fun p =>
              headRequest client (p0 ++ "/" ++ p1) (p2 ++ "/" ++ p3) (fs.Base p))) →
          (∃ msg, (pushCmd env h fs true force target files).outcome = .error msg) ∧
          (pushCmd env h fs true force target files).log =
            (upstreamExists env client (p0 ++ "/" ++ p1) (p2 ++ "/" ++ p3) (fs.Base path)
              (pre.map (fun p =>
                headRequest client (p0 ++ "/" ++ p1) (p2 ++ "/" ++ p3) (fs.Base p)))).2))) ∧
    (∀ (target : String) (files : List String),
      (destroyCmd env h true target files).changes = [] ∧
      (∀ q ∈ (destroyCmd env h true target files).log, q.Method = "HEAD") ∧
      (∀ (client : Client) (p0 p1 p2 p3 : String),
        Split target '/' = [p0, p1, p2, p3] → NewClient h "" = .ok client →
        (destroyPassAll env client (p0 ++ "/" ++ p1) (p2 ++ "/" ++ p3) files [] →
          (destroyCmd env h true target files).outcome = .ok () ∧
          (destroyCmd env h true target files).log =
            files.map (fun filename =>
              headRequest client (p0 ++ "/" ++ p1) (p2 ++ "/" ++ p3) filename)) ∧
        (∀ (pre : List String) (filename : String) (post : List String),
          files = pre ++ filename :: post →
          destroyPassAll env client (p0 ++ "/" ++ p1) (p2 ++ "/" ++ p3) pre [] →
          ¬ destroyPass env client (p0 ++ "/" ++ p1) (p2 ++ "/" ++ p3) filename
            (pre.map (fun p => headRequest client (p0 ++ "/" ++ p1) (p2 ++ "/" ++ p3) p)) →
          (∃ msg, (destroyCmd env h true target files).outcome = .error msg) ∧
          (destroyCmd env h true target files).log =
            (client.Exists env (p0 ++ "/" ++ p1) (p2 ++ "/" ++ p3) filename
              (pre.map (fun p =>
                headRequest client (p0 ++ "/" ++ p1) (p2 ++ "/" ++ p3) p))).2))) ∧
    (∀ (tmpl : Nat → Package → List Mark)
        (mapOrder : List (Package × String) → List (Package × String))
        (fuel : Nat) (repo : String) (r : Run),
      allCmd env h tmpl mapOrder true fuel repo = some r →
      r.changes = [] ∧
      (∀ q ∈ r.log, q.Method = "GET") ∧
      (∀ client : Client, NewClient h "" = .ok client →
        ∃ res, allPackages env fuel client repo = some (res, r.log) ∧
          r.outcome = res.map (fun _ => ()))) := by
  refine ⟨?_, ?_, ?_⟩
  · intro fs force target files
    have hrun : ∀ (client : Client) (p0 p1 p2 p3 : String),
        Split target '/' = [p0, p1, p2, p3] → upstreamNewClient h "" = .ok client →
        files.find? fs.IsNotExist = none →
        pushCmd env h fs true force target files =
          pushLoop env fs true force client (p0 ++ "/" ++ p1) (p2 ++ "/" ++ p3) files [] [] := by
      intro client p0 p1 p2 p3 hs hc hf
      simp [pushCmd, hs, hc, hf]
    have triv : ∀ r : Run, r.changes = [] → r.log = [] →
        r.changes = [] ∧ ∀ q ∈ r.log, q.Method = "HEAD" := by
      intro r hr hl
      rw [hl]
      exact ⟨hr, by simp⟩
    have main : (pushCmd env h fs true force target files).changes = [] ∧
        ∀ q ∈ (pushCmd env h fs true force target files).log, q.Method = "HEAD" := by
      cases hs : Split target '/' with
      | nil => exact triv _ (by simp [pushCmd, hs]) (by simp [pushCmd, hs])
      | cons p0 t0 =>
        cases t0 with
        | nil => exact triv _ (by simp [pushCmd, hs]) (by simp [pushCmd, hs])
        | cons p1 t1 =>
          cases t1 with
          | nil => exact triv _ (by simp [pushCmd, hs]) (by simp [pushCmd, hs])
          | cons p2 t2 =>
            cases t2 with
            | nil => exact triv _ (by simp [pushCmd, hs]) (by simp [pushCmd, hs])
            | cons p3 t3 =>
              cases t3 with
              | cons p4 t4 => exact triv _ (by simp [pushCmd, hs]) (by simp [pushCmd, hs])
              | nil =>
                cases hc : upstreamNewClient h "" with
                | error err =>
                  exact triv _ (by simp [pushCmd, hs, hc]) (by simp [pushCmd, hs, hc])
                | ok client =>
                  cases hf : files.find? fs.IsNotExist with
                  | some path =>
                    exact triv _ (by simp [pushCmd, hs, hc, hf]) (by simp [pushCmd, hs, hc, hf])
                  | none =>
                    rw [hrun client p0 p1 p2 p3 hs hc hf]
                    obtain ⟨h1, extra, hl, hm⟩ := pushLoop_dry_safe env fs force client
                      (p0 ++ "/" ++ p1) (p2 ++ "/" ++ p3) files [] []
                    refine ⟨h1, ?_⟩
                    rw [hl]
                    simpa using hm
    refine ⟨main.1, main.2, ?_⟩
    intro client p0 p1 p2 p3 hs hc hf
    rw [hrun client p0 p1 p2 p3 hs hc hf]
    constructor
    · intro hp
      rw [pushLoop_dry_pass env fs force client _ _ files [] [] hp]
      exact ⟨rfl, by simp⟩
    · intro pre path post hfiles hp hstop
      subst hfiles
      obtain ⟨_, hmsg, hl⟩ := pushLoop_dry_stop env fs force client
        (p0 ++ "/" ++ p1) (p2 ++ "/" ++ p3) pre path post [] [] hp (by simpa using hstop)
      exact ⟨hmsg, by simpa using hl⟩
  · intro target files
    have hrun : ∀ (client : Client) (p0 p1 p2 p3 : String),
        Split target '/' = [p0, p1, p2, p3] → NewClient h "" = .ok client →
        destroyCmd env h true target files =
          destroyLoop env true client (p0 ++ "/" ++ p1) (p2 ++ "/" ++ p3) files [] [] := by
      intro client p0 p1 p2 p3 hs hc
      simp [destroyCmd, hs, hc]
    have triv : ∀ r : Run, r.changes = [] → r.log = [] →
        r.changes = [] ∧ ∀ q ∈ r.log, q.Method = "HEAD" := by
      intro r hr hl
      rw [hl]
      exact ⟨hr, by simp⟩
    have main : (destroyCmd env h true target files).changes = [] ∧
        ∀ q ∈ (destroyCmd env h true target files).log, q.Method = "HEAD" := by
      cases hs : Split target '/' with
      | nil => exact triv _ (by simp [destroyCmd, hs]) (by simp [destroyCmd, hs])
      | cons p0 t0 =>
        cases t0 with
        | nil => exact triv _ (by simp [destroyCmd, hs]) (by simp [destroyCmd, hs])
        | cons p1 t1 =>
          cases t1 with
          | nil => exact triv _ (by simp [destroyCmd, hs]) (by simp [destroyCmd, hs])
          | cons p2 t2 =>
            cases t2 with
            | nil => exact triv _ (by simp [destroyCmd, hs]) (by simp [destroyCmd, hs])
            | cons p3 t3 =>
              cases t3 with
              | cons p4 t4 =>
                exact triv _ (by simp [destroyCmd, hs]) (by simp [destroyCmd, hs])
              | nil =>
                cases hc : NewClient h "" with
                | error err =>
                  exact triv _ (by simp [destroyCmd, hs, hc]) (by simp [destroyCmd, hs, hc])
                | ok client =>
                  rw [hrun client p0 p1 p2 p3 hs hc]
                  obtain ⟨h1, extra, hl, hm⟩ := destroyLoop_dry_safe env client
                    (p0 ++ "/" ++ p1) (p2 ++ "/" ++ p3) files [] []
                  refine ⟨h1, ?_⟩
                  rw [hl]
                  simpa using hm
    refine ⟨main.1, main.2, ?_⟩
    intro client p0 p1 p2 p3 hs hc
    rw [hrun client p0 p1 p2 p3 hs hc]
    constructor
    · intro hp
      rw [destroyLoop_dry_pass env client _ _ files [] [] hp]
      exact ⟨rfl, by simp⟩
    · intro pre filename post hfiles hp hstop
      subst hfiles
      obtain ⟨_, hmsg, hl⟩ := destroyLoop_dry_stop env client
        (p0 ++ "/" ++ p1) (p2 ++ "/" ++ p3) pre filename post [] [] hp (by simpa using hstop)
      exact ⟨hmsg, by simpa using hl⟩
  · intro tmpl mapOrder fuel repo r hr
    unfold allCmd at hr
    cases hc : NewClient h "" with
    | error err =>
      simp only [hc, Option.some.injEq] at hr
      subst hr
      exact ⟨rfl, by simp, by intro client hcl; simp at hcl⟩
    | ok client =>
      simp only [hc] at hr
      cases hp : allPackages env fuel client repo with
      | none => simp [hp] at hr
      | some pr =>
        obtain ⟨res, lg⟩ := pr
        obtain ⟨extra, hx, hg⟩ := allLoop_log env fuel _ _ _ res lg hp
        cases res with
        | error msg =>
          simp only [hp, Option.some.injEq] at hr
          subst hr
          refine ⟨rfl, ?_, ?_⟩
          · simpa [hx] using hg
          · intro cl hcl
            simp only [Except.ok.injEq] at hcl
            subst hcl
            exact ⟨.error msg, hp, rfl⟩
        | ok packages =>
          simp only [hp, Bool.not_true, Bool.false_eq_true, if_false, Option.some.injEq] at hr
          subst hr
          refine ⟨rfl, ?_, ?_⟩
          · simpa [hx] using hg
          · intro cl hcl
            simp only [Except.ok.injEq] at hcl
            subst hcl
            exact ⟨.ok packages, hp, rfl⟩

/-- The amended C11 on the sample servers: the dry run of push with the force
flag checks both files, the first of which exists, and ends normally; without
the force flag it ends with an error after the check of the first file; the
dry run of destroy checks both files; and the dry run of the all command with
a template that marks every package lists the two pages and changes
nothing. -/
theorem dryRun_suppresses_changes_witness :
    ((pushCmd sampleEnv (sampleHost "t" none) sampleFiles true true "u/r/ubuntu/xenial"
          ["dist/a.deb", "b.deb"]).outcome = .ok () ∧
      (pushCmd sampleEnv (sampleHost "t" none) sampleFiles true true "u/r/ubuntu/xenial"
          ["dist/a.deb", "b.deb"]).log =
        ["dist/a.deb", "b.deb"].map (fun path =>
          headRequest { URL := ServiceBaseURL, Token := "t" }
            ("u" ++ "/" ++ "r") ("ubuntu" ++ "/" ++ "xenial") (sampleFiles.Base path))) ∧
    ((∃ msg, (pushCmd sampleEnv (sampleHost "t" none) sampleFiles true false
          "u/r/ubuntu/xenial" ["dist/a.deb", "b.deb"]).outcome = .error msg) ∧
      (pushCmd sampleEnv (sampleHost "t" none) sampleFiles true false "u/r/ubuntu/xenial"
          ["dist/a.deb", "b.deb"]).log =
        (upstreamExists sampleEnv { URL := ServiceBaseURL, Token := "t" }
          ("u" ++ "/" ++ "r") ("ubuntu" ++ "/" ++ "xenial") (sampleFiles.Base "dist/a.deb")
          (([] : List String).map (fun p =>
            headRequest { URL := ServiceBaseURL, Token := "t" }
              ("u" ++ "/" ++ "r") ("ubuntu" ++ "/" ++ "xenial") (sampleFiles.Base p)))).2) ∧
    ((destroyCmd sampleEnv (sampleHost "t" none) true "u/r/ubuntu/xenial"
          ["a.deb", "b.deb"]).outcome = .ok () ∧
      (destroyCmd sampleEnv (sampleHost "t" none) true "u/r/ubuntu/xenial"
          ["a.deb", "b.deb"]).log =
        ["a.deb", "b.deb"].map (fun filename =>
          headRequest { URL := ServiceBaseURL, Token := "t" }
            ("u" ++ "/" ++ "r") ("ubuntu" ++ "/" ++ "xenial") filename)) ∧
    (∃ r, allCmd orderedEnv (sampleHost "t" none) markAll id true 5 "u/r" = some r ∧
      r.changes = [] ∧ ∀ q ∈ r.log, q.Method = "GET") :=
  ⟨(((dryRun_suppresses_changes sampleEnv (sampleHost "t" none)).1 sampleFiles true
      "u/r/ubuntu/xenial" ["dist/a.deb", "b.deb"]).2.2
      { URL := ServiceBaseURL, Token := "t" } "u" "r" "ubuntu" "xenial" rfl rfl rfl).1
      ⟨Or.inr ⟨rfl, rfl⟩, Or.inl rfl, trivial⟩,
   (((dryRun_suppresses_changes sampleEnv (sampleHost "t" none)).1 sampleFiles false
      "u/r/ubuntu/xenial" ["dist/a.deb", "b.deb"]).2.2
      { URL := ServiceBaseURL, Token := "t" } "u" "r" "ubuntu" "xenial" rfl rfl rfl).2
      [] "dist/a.deb" ["b.deb"] rfl trivial
      (by
        intro hp
        rcases hp with hp | ⟨_, hp⟩
        · have ht : (upstreamExists sampleEnv { URL := ServiceBaseURL, Token := "t" }
              ("u" ++ "/" ++ "r") ("ubuntu" ++ "/" ++ "xenial") (sampleFiles.Base "dist/a.deb")
              (([] : List String).map (fun p =>
                headRequest { URL := ServiceBaseURL, Token := "t" }
                  ("u" ++ "/" ++ "r") ("ubuntu" ++ "/" ++ "xenial")
                  (sampleFiles.Base p)))).1 = .ok true := rfl
          rw [ht] at hp
          exact absurd (Except.ok.inj hp) (by decide)
        · exact absurd hp (by decide)),
   (((dryRun_suppresses_changes sampleEnv (sampleHost "t" none)).2.1
      "u/r/ubuntu/xenial" ["a.deb", "b.deb"]).2.2
      { URL := ServiceBaseURL, Token := "t" } "u" "r" "ubuntu" "xenial" rfl rfl).1
      ⟨⟨true, rfl⟩, ⟨false, rfl⟩, trivial⟩,
   ⟨{ outcome := .ok (), changes := [],
      log := [getRequest { URL := ServiceBaseURL, Token := "t" } page1URL,
              getRequest { URL := ServiceBaseURL, Token := "t" } page2URL] },
    rfl,
    ((dryRun_suppresses_changes orderedEnv (sampleHost "t" none)).2.2 markAll id 5 "u/r"
      _ rfl).1,
    ((dryRun_suppresses_changes orderedEnv (sampleHost "t" none)).2.2 markAll id 5 "u/r"
      _ rfl).2.1⟩⟩

/-- The same commands without the dry-run flag do call state-changing
operations: push with the force flag destroys the file `a.deb` that exists,
destroy destroys it, and the all command destroys the first marked package;
and the dry run of push sends the two HEAD requests of its two files. -/
theorem commands_sample_runs :
    (pushCmd sampleEnv (sampleHost "t" none) sampleFiles false true "u/r/ubuntu/xenial"
        ["dist/a.deb", "b.deb"]).changes =
      [Change.Destroy "u/r/ubuntu/xenial" "a.deb"] ∧
    (pushCmd sampleEnv (sampleHost "t" none) sampleFiles false true "u/r/ubuntu/xenial"
        ["b.deb"]).changes =
      [Change.CreatePackage "u/r" "ubuntu/xenial" "b.deb"] ∧
    (destroyCmd sampleEnv (sampleHost "t" none) false "u/r/ubuntu/xenial"
        ["a.deb", "b.deb"]).changes =
      [Change.Destroy "u/r/ubuntu/xenial" "a.deb"] ∧
    (allCmd orderedEnv (sampleHost "t" none) markAll id false 5 "u/r").map
        (fun r => r.changes) =
      some [Change.DestroyFromPackage (samplePackage "a")] ∧
    (pushCmd sampleEnv (sampleHost "t" none) sampleFiles true true "u/r/ubuntu/xenial"
        ["dist/a.deb", "b.deb"]).log =
      [headRequest { URL := ServiceBaseURL, Token := "t" } "u/r" "ubuntu/xenial" "a.deb",
       headRequest { URL := ServiceBaseURL, Token := "t" } "u/r" "ubuntu/xenial" "b.deb"] :=
  ⟨rfl, rfl, rfl, rfl, rfl⟩

/-! ## Addresses of the requests: theorems -/

/-- Claim C12, as stated, fails: for the repo `u/r`, the distro `ubuntu/xenial`
and the file `a.deb`, the HEAD request of Exists goes to the base URL followed
by a slash, the repo, the segment `packages`, the distro and the file, which
is not the base URL followed by the repo, the distro, the segment `packages`
and the file (with or without a slash after the base URL). -/
theorem Exists_request_path_counterexample :
    (sampleClient.Exists sampleEnv "u/r" "ubuntu/xenial" "a.deb" []).2.map
        (fun q => (q.Method, q.URL)) =
      [("HEAD", "https://packagecloud.io//u/r/packages/ubuntu/xenial/a.deb")] ∧
    "https://packagecloud.io//u/r/packages/ubuntu/xenial/a.deb" ≠
      ServiceBaseURL ++ "u/r" ++ "/" ++ "ubuntu/xenial" ++ "/packages/" ++ "a.deb" ∧
    "https://packagecloud.io//u/r/packages/ubuntu/xenial/a.deb" ≠
      ServiceBaseURL ++ "/" ++ "u/r" ++ "/" ++ "ubuntu/xenial" ++ "/packages/" ++ "a.deb" :=
  ⟨rfl, by decide, by decide⟩

/-- Claim C12, amended. For every repo, distro and file name, the only request
Exists sends is a HEAD request addressed to the base URL followed by a slash,
the repo, the literal segment `packages`, the distro and the file name, in
that order; and it has sent that request whenever it returns an answer. -/
theorem Exists_request_path (env : Env) (c : Client)
    (repo distro packageFilename : String) (log : List Request) :
    (∀ q ∈ (c.Exists env repo distro packageFilename log).2, q ∈ log ∨
      (q.Method = "HEAD" ∧
        q.URL = ServiceBaseURL ++ "/" ++ repo ++ "/packages/" ++ distro ++ "/" ++
          packageFilename)) ∧
    (∀ b : Bool, (c.Exists env repo distro packageFilename log).1 = .ok b →
      ∃ q, (c.Exists env repo distro packageFilename log).2 = log ++ [q] ∧
        q.Method = "HEAD" ∧
        q.URL = ServiceBaseURL ++ "/" ++ repo ++ "/packages/" ++ distro ++ "/" ++
          packageFilename) := by
  obtain ⟨h1, h2⟩ := Exists_log env c repo distro packageFilename log
  constructor
  · intro q hq
    rcases h1 with h | h
    · rw [h] at hq
      exact Or.inl hq
    · rw [h] at hq
      rcases List.mem_append.1 hq with hq1 | hq1
      · exact Or.inl hq1
      · rw [List.mem_singleton.1 hq1]
        exact Or.inr ⟨rfl, rfl⟩
  · intro b hb
    exact ⟨_, h2 b hb, rfl, rfl⟩

/-- The amended C12 on the sample server: the check of `a.deb` is answered, and
its request is the HEAD request of the address with `packages` after the
repo. -/
theorem Exists_request_path_witness :
    ∃ q, (sampleClient.Exists sampleEnv "u/r" "ubuntu/xenial" "a.deb" []).2 = [] ++ [q] ∧
      q.Method = "HEAD" ∧
      q.URL = ServiceBaseURL ++ "/" ++ "u/r" ++ "/packages/" ++ "ubuntu/xenial" ++ "/" ++
        "a.deb" :=
  (Exists_request_path sampleEnv sampleClient "u/r" "ubuntu/xenial" "a.deb" []).2 true rfl

/-- A page fetch by a client with another URL field sends the same request
and returns the same page, up to the client captured in `Next`. -/
theorem GetPaginatedPackages_withURL (env : Env) (c : Client) (url endpoint : String)
    (log : List Request) :
    Client.GetPaginatedPackages env { c with URL := url } endpoint log =
      ((c.GetPaginatedPackages env endpoint log).1.map
          (fun page => { page with Next := page.Next.map (NextFn.withURL url) }),
        (c.GetPaginatedPackages env endpoint log).2) := by
  unfold Client.GetPaginatedPackages
  cases NewRequest env "GET" endpoint "" with
  | error err => rfl
  | ok req =>
    have ha : authorize { c with URL := url } req = authorize c req := rfl
    simp only [ha]
    cases clientDo env log (authorize c req) with
    | error err => rfl
    | ok resp =>
      simp only
      cases decodeResponse env env.decodePackages resp with
      | error err => rfl
      | ok packages =>
        simp only
        cases ExtractPaginationHeaders env resp with
        | error err => rfl
        | ok paginated =>
          simp only [rangeLinks_eq, Except.map]
          cases lastNext resp.Links <;> rfl

/-- Calling a stored function whose client has another URL field sends the
same request. -/
theorem NextFn.call_withURL (env : Env) (f : NextFn) (url : String) (log : List Request) :
    (f.withURL url).call env log =
      ((f.call env log).1.map
          (fun page => { page with Next := page.Next.map (NextFn.withURL url) }),
        (f.call env log).2) := by
  cases f with
  | first client repo => exact GetPaginatedPackages_withURL env client url _ log
  | linked c link => exact GetPaginatedPackages_withURL env c url _ log

/-- The listing loop does the same for stored functions that differ in the URL
field of their client. -/
theorem allLoop_withURL (env : Env) (url : String) :
    ∀ (fuel : Nat) (next : Option NextFn) (acc : List Package) (log : List Request),
      allLoop env fuel (next.map (NextFn.withURL url)) acc log =
        allLoop env fuel next acc log := by
  intro fuel
  induction fuel with
  | zero =>
    intro next acc log
    cases next <;> rfl
  | succ n ih =>
    intro next acc log
    cases next with
    | none => rfl
    | some f =>
      simp only [Option.map_some', allLoop, NextFn.call_withURL]
      cases hc : f.call env log with
      | mk r lg =>
        cases r with
        | error err => rfl
        | ok page => exact ih page.Next (acc ++ page.Packages) lg

/-- Claim C13, as stated, fails: the client NewClient reads from the sample
credentials file has the URL `https://example.org/`, and its existence check,
its distributions request and its listing go to the same packagecloud.io
addresses, by the same requests, as those of a client with the default
URL. -/
theorem client_URL_counterexample :
    NewClient (sampleHost "" (some credentialsBody)) "" =
      .ok { URL := "https://example.org/", Token := "filetoken" } ∧
    ((Client.Exists sampleEnv { URL := "https://example.org/", Token := "filetoken" }
        "u/r" "ubuntu/xenial" "a.deb" []).2.map (fun q => q.URL) =
      ["https://packagecloud.io//u/r/packages/ubuntu/xenial/a.deb"]) ∧
    ((Client.Distributions sampleEnv { URL := "https://example.org/", Token := "filetoken" }
        []).2.map (fun q => q.URL) =
      ["https://packagecloud.io/api/v1/distributions.json"]) ∧
    ((Client.PaginatedAll sampleEnv { URL := "https://example.org/", Token := "filetoken" }
        "u/r" []).2.map (fun q => q.URL) =
      ["https://packagecloud.io/api/v1/repos/u/r/packages.json"]) ∧
    (Client.Exists sampleEnv { URL := "https://example.org/", Token := "filetoken" }
        "u/r" "ubuntu/xenial" "a.deb" []).2 =
      (Client.Exists sampleEnv { URL := ServiceBaseURL, Token := "filetoken" }
        "u/r" "ubuntu/xenial" "a.deb" []).2 :=
  ⟨rfl, rfl, rfl, rfl, rfl⟩

/-- Claim C13, amended. The URL field of a client, which NewClient fills from
the credentials file, is not read by any operation: a client with any other
URL field and the same token gets the same result from, and sends the same
requests for, the existence check, the destroy by path, the destroy and the
promote by the URL of a package, the distributions, the mapping of the
distros, the upload and the whole listing of the all command; a page fetch
sends the same request. -/
theorem requests_ignore_client_URL (env : Env) (c : Client) (url : String) :
    (∀ (repo distro packageFilename : String) (log : List Request),
      Client.Exists env { c with URL := url } repo distro packageFilename log =
        c.Exists env repo distro packageFilename log) ∧
    (∀ (repo packageFilename : String) (log : List Request),
      Client.Destroy env { c with URL := url } repo packageFilename log =
        c.Destroy env repo packageFilename log) ∧
    (∀ (p : Package) (log : List Request),
      Client.DestroyFromPackage env { c with URL := url } p log =
        c.DestroyFromPackage env p log) ∧
    (∀ (p : Package) (repo : String) (log : List Request),
      Client.Promote env { c with URL := url } p repo log = c.Promote env p repo log) ∧
    (∀ log : List Request,
      Client.Distributions env { c with URL := url } log = c.Distributions env log) ∧
    (∀ log : List Request,
      Client.SupportedDistros env { c with URL := url } log = c.SupportedDistros env log) ∧
    (∀ (repo distro pkgFile : String) (log : List Request),
      Client.CreatePackage env { c with URL := url } repo distro pkgFile log =
        c.CreatePackage env repo distro pkgFile log) ∧
    (∀ (endpoint : String) (log : List Request),
      (Client.GetPaginatedPackages env { c with URL := url } endpoint log).2 =
        (c.GetPaginatedPackages env endpoint log).2) ∧
    (∀ (fuel : Nat) (repo : String),
      allPackages env fuel { c with URL := url } repo = allPackages env fuel c repo) := by
  refine ⟨fun _ _ _ _ => rfl, fun _ _ _ => rfl, fun _ _ => rfl, fun _ _ _ => rfl,
    fun _ => rfl, fun _ => rfl, fun _ _ _ _ => rfl, ?_, ?_⟩
  · intro endpoint log
    rw [GetPaginatedPackages_withURL]
  · intro fuel repo
    exact allLoop_withURL env url fuel (some (NextFn.first c repo)) [] []

end Pkgcloud
